import Mathlib

/-!
Verification of the movira-sdk canonicalization, content-addressing and
status-derivation core against its specification.

The TypeScript sources are shallowly embedded: JS strings are modelled as
sequences of Unicode scalar values, with JS-observable behaviour (`.length`,
default `Array.prototype.sort` comparisons, `String.prototype.includes`)
expressed over their UTF-16 code-unit sequences; JS numbers are modelled as
`nan`, signed infinities, or exact rationals (every finite IEEE double is a
rational, and the orderings used by the code coincide with the rational
orderings); JSON-representable JS values are the mutual inductive
`JVal`/`JList`/`JFields`, where a `JFields` list carries the object's
property enumeration order.
-/

set_option maxRecDepth 8192

namespace Movira

/-- UTF-16 code units of one Unicode scalar value, as produced by a JS string. -/
def utf16Chars (c : Char) : List Nat :=
  if c.toNat < 65536 then [c.toNat]
  else [55296 + (c.toNat - 65536) / 1024, 56320 + (c.toNat - 65536) % 1024]

/-- UTF-16 code-unit sequence of a JS string. -/
def strUnits (s : String) : List Nat :=
  s.data.foldr (fun c acc => utf16Chars c ++ acc) []

/-- JS `String.prototype.length`: the number of UTF-16 code units. -/
def jsLength (s : String) : Nat := (strUnits s).length

/-- Strict lexicographic order on code-unit sequences; this is the order JS
`<` computes on strings and hence the order used by default `Array.sort`. -/
def unitsLt : List Nat → List Nat → Bool
  | [], [] => false
  | [], _ :: _ => true
  | _ :: _, [] => false
  | a :: as, b :: bs => if a < b then true else if b < a then false else unitsLt as bs

/-- JS string comparison `a <= b` (code-unit lexicographic). -/
def jsStrLe (a b : String) : Bool := ! unitsLt (strUnits b) (strUnits a)

/-- Model of a JS number: NaN, an infinity, or a finite value. Every finite
IEEE double denotes a rational, and double comparison agrees with rational
comparison, so the finite case carries an exact rational. -/
inductive JsNum where
  | nan
  | inf (pos : Bool)
  | fin (q : ℚ)
deriving DecidableEq

/-- Number.isFinite. -/
def JsNum.isFiniteNum : JsNum → Bool
  | .fin _ => true
  | _ => false

/-- JS comparison `n > c` for a rational bound `c` (false for NaN). -/
def JsNum.gtQ : JsNum → ℚ → Bool
  | .nan, _ => false
  | .inf b, _ => b
  | .fin q, c => decide (c < q)

mutual
/-- A JSON-representable JS value. `date` is a JS `Date` object carrying its
epoch-milliseconds time value; `undefVal` is the JS value `undefined`. An
`obj`'s field list is in the object's property enumeration order. -/
inductive JVal where
  | null
  | bool (b : Bool)
  | num (n : JsNum)
  | str (s : String)
  | date (ms : Int)
  | undefVal
  | arr (xs : JList)
  | obj (fs : JFields)
inductive JList where
  | nil
  | cons (v : JVal) (rest : JList)
inductive JFields where
  | nil
  | cons (k : String) (v : JVal) (rest : JFields)
end

def JList.toList : JList → List JVal
  | .nil => []
  | .cons v r => v :: r.toList

def JList.ofList : List JVal → JList
  | [] => .nil
  | v :: r => .cons v (JList.ofList r)

def JFields.toList : JFields → List (String × JVal)
  | .nil => []
  | .cons k v r => (k, v) :: r.toList

def JFields.ofList : List (String × JVal) → JFields
  | [] => .nil
  | (k, v) :: r => .cons k v (JFields.ofList r)

/-- Keys of an object's field list, in enumeration order. -/
def JFields.keys : JFields → List String
  | .nil => []
  | .cons k _ r => k :: r.keys

/-- Property lookup `v[k]` on an object field list: first binding wins. -/
def JFields.get : JFields → String → Option JVal
  | .nil, _ => none
  | .cons k v r, k' => if k = k' then some v else r.get k'

/-- Sort comparator used on the key-value pairs: JS string `<=` on the keys.
This is what `Object.keys(value).sort()` orders by. -/
def keyLe (a b : String × JVal) : Prop := jsStrLe a.1 b.1 = true

instance : DecidableRel keyLe := fun _ _ => inferInstanceAs (Decidable (_ = true))

/-- Canonical-array-index test on a property key, per the JS object model:
the key is the canonical decimal form of an integer below 2^32 - 1. Such
keys are enumerated before all other keys, in ascending numeric order. -/
def isArrayIndexKey (s : String) : Bool :=
  let cs := s.data
  (decide (cs ≠ [])) && cs.all (fun c => decide ('0' ≤ c) && decide (c ≤ '9')) &&
    (decide (cs.head? ≠ some '0') || decide (cs.length = 1)) &&
    decide (cs.foldl (fun acc c => acc * 10 + (c.toNat - 48)) 0 < 4294967295)

/-- Numeric value of an array-index key. -/
def keyIndexVal (s : String) : Nat :=
  s.data.foldl (fun acc c => acc * 10 + (c.toNat - 48)) 0

def idxLe (a b : String × JVal) : Prop := keyIndexVal a.1 ≤ keyIndexVal b.1

instance : DecidableRel idxLe := fun _ _ => inferInstanceAs (Decidable (_ ≤ _))

/-- JS property enumeration order of a freshly built object whose properties
were inserted in the order of the given list: array-index keys first, in
ascending numeric order, then the remaining keys in insertion order. -/
def jsEnumOrder (l : List (String × JVal)) : List (String × JVal) :=
  List.insertionSort idxLe (l.filter (fun kv => isArrayIndexKey kv.1)) ++
    l.filter (fun kv => ! isArrayIndexKey kv.1)

/-- Keys as sorted by `Object.keys(value).sort()`. -/
def sortPairs (l : List (String × JVal)) : List (String × JVal) :=
  List.insertionSort keyLe l

mutual
/-- Embedding of `sortObject` from `src/utils/serialization.ts`: arrays are
mapped elementwise; `Date` objects and scalars pass through; for other
objects the keys are sorted and a fresh object is built by inserting the
(recursively processed) values in sorted key order, so the resulting
object's enumeration order is `jsEnumOrder` of the sorted pairs. The source
sorts keys before recursing into values; since the sort inspects keys only,
processing the values first (as below, to keep the recursion structural) is
the same function. -/
def sortObject : JVal → JVal
  | .arr xs => .arr (sortArr xs)
  | .obj fs => .obj (JFields.ofList (jsEnumOrder (sortPairs (JFields.toList (sortVals fs)))))
  | v => v
def sortArr : JList → JList
  | .nil => .nil
  | .cons v r => .cons (sortObject v) (sortArr r)
def sortVals : JFields → JFields
  | .nil => .nil
  | .cons k v r => .cons k (sortObject v) (sortVals r)
end

/-- Decimal digits of `rem/den` (0 < rem < den), as produced by long
division, stopping when the remainder vanishes or the fuel runs out. -/
def fracDigits : Nat → Nat → Nat → String
  | _, _, 0 => ""
  | rem, den, fuel + 1 =>
    let r10 := rem * 10
    let digit := r10 / den
    let rem' := r10 % den
    Nat.repr digit ++ (if rem' = 0 then "" else fracDigits rem' den fuel)

/-- Decimal rendering of a rational (exact when the expansion terminates,
as it does for every value arising from parsed JSON decimals). -/
def ratRender (q : ℚ) : String :=
  let sign := if q < 0 then "-" else ""
  let n := q.num.natAbs
  let d := q.den
  let ip := n / d
  let rem := n % d
  sign ++ Nat.repr ip ++ (if rem = 0 then "" else "." ++ fracDigits rem d 64)

/-- JSON.stringify rendering of a JS number; non-finite numbers serialize
as `null`. (Platform builtin: modelled as exact shortest decimal for the
terminating-decimal rationals the SDK produces.) -/
def numRender : JsNum → String
  | .nan => "null"
  | .inf _ => "null"
  | .fin q => ratRender q

def hexDigitChar (n : Nat) : Char :=
  if n < 10 then Char.ofNat (48 + n) else Char.ofNat (87 + n)

/-- JSON.stringify escaping of one character of a string value. -/
def escapeChar (c : Char) : String :=
  if c = '"' then "\\\""
  else if c = '\\' then "\\\\"
  else if c.toNat = 8 then "\\b"
  else if c.toNat = 9 then "\\t"
  else if c.toNat = 10 then "\\n"
  else if c.toNat = 12 then "\\f"
  else if c.toNat = 13 then "\\r"
  else if c.toNat < 32 then
    "\\u00" ++ String.mk [hexDigitChar (c.toNat / 16), hexDigitChar (c.toNat % 16)]
  else String.singleton c

/-- JSON.stringify rendering of a string value (quoted and escaped). -/
def renderStr (s : String) : String :=
  "\"" ++ s.data.foldr (fun c acc => escapeChar c ++ acc) "" ++ "\""

def padTo (w : Nat) (s : String) : String :=
  if s.length < w then String.mk (List.replicate (w - s.length) '0') ++ s else s

/-- ISO-8601 UTC rendering of an epoch-milliseconds time value, as produced
by `Date.prototype.toJSON` (platform builtin; civil-date algorithm). -/
def isoOfMs (ms : Int) : String :=
  let days := Int.fdiv ms 86400000
  let msod := (ms - days * 86400000).toNat
  let z := days + 719468
  let era := Int.fdiv z 146097
  let doe := (z - era * 146097).toNat
  let yoe := (doe - doe / 1460 + doe / 36524 - doe / 146096) / 365
  let doy := doe - (365 * yoe + yoe / 4 - yoe / 100)
  let mp := (5 * doy + 2) / 153
  let d := doy - (153 * mp + 2) / 5 + 1
  let mon := if mp < 10 then mp + 3 else mp - 9
  let year : Int := (yoe : Int) + era * 400 + (if mon ≤ 2 then 1 else 0)
  let yearStr := if year < 0 then "-" ++ padTo 6 (Nat.repr year.natAbs)
    else if year > 9999 then "+" ++ padTo 6 (Nat.repr year.natAbs)
    else padTo 4 (Nat.repr year.natAbs)
  yearStr ++ "-" ++ padTo 2 (Nat.repr mon) ++ "-" ++ padTo 2 (Nat.repr d) ++
    "T" ++ padTo 2 (Nat.repr (msod / 3600000)) ++ ":" ++
    padTo 2 (Nat.repr (msod / 60000 % 60)) ++ ":" ++
    padTo 2 (Nat.repr (msod / 1000 % 60)) ++ "." ++
    padTo 3 (Nat.repr (msod % 1000)) ++ "Z"

def commaJoin : List String → String
  | [] => ""
  | [s] => s
  | s :: r => s ++ "," ++ commaJoin r

mutual
/-- JSON.stringify on a JS value (platform builtin): `none` exactly when the
value is `undefined` (stringify of `undefined` is not a string); inside an
array `undefined` renders as `null`; an object field with an `undefined`
value is dropped; `Date` values render via `toJSON` as quoted ISO strings. -/
def renderJ : JVal → Option String
  | .undefVal => none
  | .null => some "null"
  | .bool b => some (if b then "true" else "false")
  | .num n => some (numRender n)
  | .str s => some (renderStr s)
  | .date ms => some (renderStr (isoOfMs ms))
  | .arr xs => some ("[" ++ commaJoin (renderL xs) ++ "]")
  | .obj fs => some ("\x7b" ++ commaJoin (renderF fs) ++ "\x7d")
def renderL : JList → List String
  | .nil => []
  | .cons v r =>
    (match renderJ v with
      | none => "null"
      | some s => s) :: renderL r
def renderF : JFields → List String
  | .nil => []
  | .cons k v r =>
    match renderJ v with
    | none => renderF r
    | some s => (renderStr k ++ ":" ++ s) :: renderF r
end

/-- Embedding of `stableStringify` from `src/utils/serialization.ts`:
`JSON.stringify(sortObject(obj))`. -/
def stableStringify (v : JVal) : Option String :=
  renderJ (sortObject v)

/-- `stableStringify` as used by the services, which always pass objects
(for which the result is never `none`). -/
def stableStringifyD (v : JVal) : String :=
  (stableStringify v).getD ""

/-! SHA-256 (the `crypto.createHash('sha256')` platform builtin used by
`sha256Hex`), implemented on naturals with explicit mod-2^32 arithmetic. -/

def utf8Char (c : Char) : List Nat :=
  let n := c.toNat
  if n < 128 then [n]
  else if n < 2048 then [192 + n / 64, 128 + n % 64]
  else if n < 65536 then [224 + n / 4096, 128 + n / 64 % 64, 128 + n % 64]
  else [240 + n / 262144, 128 + n / 4096 % 64, 128 + n / 64 % 64, 128 + n % 64]

/-- UTF-8 bytes of a string; Node's `hash.update(s)` hashes strings as UTF-8. -/
def utf8Bytes (s : String) : List Nat :=
  s.data.foldr (fun c acc => utf8Char c ++ acc) []

def w32 (n : Nat) : Nat := n % 4294967296

/-- Right rotation of a 32-bit word. -/
def rotr (n x : Nat) : Nat := x / 2 ^ n + x % 2 ^ n * 2 ^ (32 - n)

def shaCh (x y z : Nat) : Nat := (x &&& y) ^^^ ((4294967295 - x) &&& z)

def shaMaj (x y z : Nat) : Nat := (x &&& y) ^^^ (x &&& z) ^^^ (y &&& z)

def bigSigma0 (x : Nat) : Nat := rotr 2 x ^^^ rotr 13 x ^^^ rotr 22 x

def bigSigma1 (x : Nat) : Nat := rotr 6 x ^^^ rotr 11 x ^^^ rotr 25 x

def smallSigma0 (x : Nat) : Nat := rotr 7 x ^^^ rotr 18 x ^^^ x / 8

def smallSigma1 (x : Nat) : Nat := rotr 17 x ^^^ rotr 19 x ^^^ x / 1024

def shaK : List Nat :=
  [1116352408, 1899447441, 3049323471, 3921009573, 961987163, 1508970993,
   2453635748, 2870763221, 3624381080, 310598401, 607225278, 1426881987,
   1925078388, 2162078206, 2614888103, 3248222580, 3835390401, 4022224774,
   264347078, 604807628, 770255983, 1249150122, 1555081692, 1996064986,
   2554220882, 2821834349, 2952996808, 3210313671, 3336571891, 3584528711,
   113926993, 338241895, 666307205, 773529912, 1294757372, 1396182291,
   1695183700, 1986661051, 2177026350, 2456956037, 2730485921, 2820302411,
   3259730800, 3345764771, 3516065817, 3600352804, 4094571909, 275423344,
   430227734, 506948616, 659060556, 883997877, 958139571, 1322822218,
   1537002063, 1747873779, 1955562222, 2024104815, 2227730452, 2361852424,
   2428436474, 2756734187, 3204031479, 3329325298]

/-- Message padding: append 0x80, zero bytes to reach 56 mod 64, then the
bit length as 8 big-endian bytes. -/
def padMsg (msg : List Nat) : List Nat :=
  let L := msg.length
  let k := (119 - L % 64) % 64
  let bits := L * 8
  msg ++ 128 :: List.replicate k 0 ++
    [bits / 72057594037927936 % 256, bits / 281474976710656 % 256,
     bits / 1099511627776 % 256, bits / 4294967296 % 256,
     bits / 16777216 % 256, bits / 65536 % 256, bits / 256 % 256, bits % 256]

def chunks64Go : Nat → List Nat → List (List Nat)
  | 0, _ => []
  | _, [] => []
  | fuel + 1, l => l.take 64 :: chunks64Go fuel (l.drop 64)

def chunks64 (l : List Nat) : List (List Nat) := chunks64Go l.length l

def bytesToWords : List Nat → List Nat
  | b0 :: b1 :: b2 :: b3 :: rest =>
    (b0 * 16777216 + b1 * 65536 + b2 * 256 + b3) :: bytesToWords rest
  | _ => []

/-- One message-schedule word, computed from the reversed schedule suffix. -/
def schedStep (racc : List Nat) : Nat :=
  w32 (smallSigma1 (racc.getD 1 0) + racc.getD 6 0 +
    smallSigma0 (racc.getD 14 0) + racc.getD 15 0)

def schedExtend : Nat → List Nat → List Nat
  | 0, racc => racc.reverse
  | fuel + 1, racc => schedExtend fuel (schedStep racc :: racc)

def schedule (block16 : List Nat) : List Nat := schedExtend 48 block16.reverse

structure H8 where
  a : Nat
  b : Nat
  c : Nat
  d : Nat
  e : Nat
  f : Nat
  g : Nat
  h : Nat

def shaH0 : H8 :=
  ⟨1779033703, 3144134277, 1013904242, 2773480762, 1359893119, 2600822924,
   528734635, 1541459225⟩

def roundFn (st : H8) (k w : Nat) : H8 :=
  let t1 := w32 (st.h + bigSigma1 st.e + shaCh st.e st.f st.g + k + w)
  let t2 := w32 (bigSigma0 st.a + shaMaj st.a st.b st.c)
  ⟨w32 (t1 + t2), st.a, st.b, st.c, w32 (st.d + t1), st.e, st.f, st.g⟩

def roundsGo : List (Nat × Nat) → H8 → H8
  | [], st => st
  | (k, w) :: r, st => roundsGo r (roundFn st k w)

def compressBlock (st : H8) (block : List Nat) : H8 :=
  let ws := schedule (bytesToWords block)
  let fin := roundsGo (shaK.zip ws) st
  ⟨w32 (st.a + fin.a), w32 (st.b + fin.b), w32 (st.c + fin.c), w32 (st.d + fin.d),
   w32 (st.e + fin.e), w32 (st.f + fin.f), w32 (st.g + fin.g), w32 (st.h + fin.h)⟩

def wordHex (n : Nat) : String :=
  String.mk [hexDigitChar (n / 268435456 % 16), hexDigitChar (n / 16777216 % 16),
    hexDigitChar (n / 1048576 % 16), hexDigitChar (n / 65536 % 16),
    hexDigitChar (n / 4096 % 16), hexDigitChar (n / 256 % 16),
    hexDigitChar (n / 16 % 16), hexDigitChar (n % 16)]

/-- Embedding of `sha256Hex` from `src/utils/serialization.ts`: lowercase
hex SHA-256 digest of the UTF-8 bytes of the input string. -/
def sha256Hex (s : String) : String :=
  let fin := (chunks64 (padMsg (utf8Bytes s))).foldl compressBlock shaH0
  wordHex fin.a ++ wordHex fin.b ++ wordHex fin.c ++ wordHex fin.d ++
    wordHex fin.e ++ wordHex fin.f ++ wordHex fin.g ++ wordHex fin.h

/-! JS string helpers used by the scanning code. -/

/-- Contiguous-subsequence test on code-unit lists. -/
def unitsHasAt : List Nat → List Nat → Bool
  | _, [] => true
  | [], _ :: _ => false
  | h :: hs, n :: ns => decide (h = n) && unitsHasAt hs ns

def unitsContains (hay needle : List Nat) : Bool :=
  match hay with
  | [] => needle.isEmpty
  | _ :: rest => unitsHasAt hay needle || unitsContains rest needle

/-- JS `String.prototype.includes` (code-unit containment). -/
def jsIncludes (s sub : String) : Bool :=
  unitsContains (strUnits s) (strUnits sub)

/-- ASCII fragment of `String.prototype.toLowerCase` (platform builtin);
the code only uses it before testing for the ASCII keywords `repay`,
`loan`, `lend`. -/
def lowerAscii (s : String) : String :=
  String.mk (s.data.map (fun c =>
    if 'A' ≤ c ∧ c ≤ 'Z' then Char.ofNat (c.toNat + 32) else c))

/-! JSON.parse model (platform builtin). Numbers are taken at their exact
decimal value (every finite double is a rational; the concrete payloads the
SDK produces round-trip exactly); a lone-surrogate `\u` escape, which a JS
string can hold but a Unicode-scalar model cannot, becomes U+FFFD. -/

def isWsChar (c : Char) : Bool :=
  c = ' ' || c = '\t' || c = '\n' || c = '\r'

def skipWs : List Char → List Char
  | [] => []
  | c :: r => if isWsChar c then skipWs r else c :: r

def isDigitChar (c : Char) : Bool := decide ('0' ≤ c) && decide (c ≤ '9')

def takeDigits : List Char → List Char × List Char
  | [] => ([], [])
  | c :: r =>
    if isDigitChar c then
      let p := takeDigits r
      (c :: p.1, p.2)
    else ([], c :: r)

def digitsToNat (ds : List Char) : Nat :=
  ds.foldl (fun a c => a * 10 + (c.toNat - 48)) 0

/-- Parse a JSON number literal, returning its exact rational value. -/
def parseNumber (cs : List Char) : Option (ℚ × List Char) :=
  let negp : Bool × List Char :=
    match cs with
    | '-' :: r => (true, r)
    | _ => (false, cs)
  let neg := negp.1
  let cs1 := negp.2
  match cs1 with
  | [] => none
  | c :: _ =>
    if ! isDigitChar c then none
    else
      let ip := takeDigits cs1
      if ip.1.head? = some '0' && decide (ip.1.length > 1) then none
      else
        let fp : Option (List Char × List Char) :=
          match ip.2 with
          | '.' :: rf =>
            let q := takeDigits rf
            if q.1.isEmpty then none else some (q.1, q.2)
          | r1 => some ([], r1)
        match fp with
        | none => none
        | some (fds, r2) =>
          let ep : Option (Int × List Char) :=
            match r2 with
            | 'e' :: re =>
              match re with
              | '+' :: rd =>
                let q := takeDigits rd
                if q.1.isEmpty then none else some ((digitsToNat q.1 : Int), q.2)
              | '-' :: rd =>
                let q := takeDigits rd
                if q.1.isEmpty then none else some (-(digitsToNat q.1 : Int), q.2)
              | _ =>
                let q := takeDigits re
                if q.1.isEmpty then none else some ((digitsToNat q.1 : Int), q.2)
            | 'E' :: re =>
              match re with
              | '+' :: rd =>
                let q := takeDigits rd
                if q.1.isEmpty then none else some ((digitsToNat q.1 : Int), q.2)
              | '-' :: rd =>
                let q := takeDigits rd
                if q.1.isEmpty then none else some (-(digitsToNat q.1 : Int), q.2)
              | _ =>
                let q := takeDigits re
                if q.1.isEmpty then none else some ((digitsToNat q.1 : Int), q.2)
            | r3 => some (0, r3)
          match ep with
          | none => none
          | some (e, r4) =>
            let mant := digitsToNat ip.1 * 10 ^ fds.length + digitsToNat fds
            let den := 10 ^ fds.length
            let num : Int := if neg then -(mant : Int) else (mant : Int)
            let q : ℚ :=
              if e ≥ 0 then mkRat (num * (10 : Int) ^ e.toNat) den
              else mkRat num (den * 10 ^ (-e).toNat)
            some (q, r4)

def hexVal (c : Char) : Option Nat :=
  if decide ('0' ≤ c) && decide (c ≤ '9') then some (c.toNat - 48)
  else if decide ('a' ≤ c) && decide (c ≤ 'f') then some (c.toNat - 87)
  else if decide ('A' ≤ c) && decide (c ≤ 'F') then some (c.toNat - 55)
  else none

/-- Parse the body of a JSON string literal (after the opening quote). -/
def parseStringBody : Nat → List Char → List Char → Option (String × List Char)
  | 0, _, _ => none
  | _, [], _ => none
  | fuel + 1, c :: r, acc =>
    if c = '"' then some (String.mk acc.reverse, r)
    else if c = '\\' then
      match r with
      | [] => none
      | e :: r2 =>
        if e = '"' then parseStringBody fuel r2 ('"' :: acc)
        else if e = '\\' then parseStringBody fuel r2 ('\\' :: acc)
        else if e = '/' then parseStringBody fuel r2 ('/' :: acc)
        else if e = 'b' then parseStringBody fuel r2 (Char.ofNat 8 :: acc)
        else if e = 'f' then parseStringBody fuel r2 (Char.ofNat 12 :: acc)
        else if e = 'n' then parseStringBody fuel r2 ('\n' :: acc)
        else if e = 'r' then parseStringBody fuel r2 ('\r' :: acc)
        else if e = 't' then parseStringBody fuel r2 ('\t' :: acc)
        else if e = 'u' then
          match r2 with
          | h1 :: h2 :: h3 :: h4 :: r3 =>
            match hexVal h1, hexVal h2, hexVal h3, hexVal h4 with
            | some a, some b, some cc, some d =>
              let u := a * 4096 + b * 256 + cc * 16 + d
              if u < 55296 ∨ u ≥ 57344 then
                parseStringBody fuel r3 (Char.ofNat u :: acc)
              else if u < 56320 then
                match r3 with
                | '\\' :: 'u' :: g1 :: g2 :: g3 :: g4 :: r4 =>
                  match hexVal g1, hexVal g2, hexVal g3, hexVal g4 with
                  | some a2, some b2, some c2, some d2 =>
                    let u2 := a2 * 4096 + b2 * 256 + c2 * 16 + d2
                    if 56320 ≤ u2 ∧ u2 < 57344 then
                      parseStringBody fuel r4
                        (Char.ofNat (65536 + (u - 55296) * 1024 + (u2 - 56320)) :: acc)
                    else parseStringBody fuel r3 (Char.ofNat 65533 :: acc)
                  | _, _, _, _ => parseStringBody fuel r3 (Char.ofNat 65533 :: acc)
                | _ => parseStringBody fuel r3 (Char.ofNat 65533 :: acc)
              else parseStringBody fuel r3 (Char.ofNat 65533 :: acc)
            | _, _, _, _ => none
          | _ => none
        else none
    else if c.toNat < 32 then none
    else parseStringBody fuel r (c :: acc)

/-- Object-literal insertion: a duplicate key keeps its original position
but takes the later value, as in JS. -/
def insertFld (fs : List (String × JVal)) (k : String) (v : JVal) :
    List (String × JVal) :=
  match fs with
  | [] => [(k, v)]
  | (k', v') :: r => if k' = k then (k', v) :: r else (k', v') :: insertFld r k v

mutual
def parseVal : Nat → List Char → Option (JVal × List Char)
  | 0, _ => none
  | fuel + 1, cs =>
    match skipWs cs with
    | [] => none
    | c :: r =>
      if c = '"' then
        match parseStringBody (r.length + 1) r [] with
        | some (s, rest) => some (.str s, rest)
        | none => none
      else if c = '\x7b' then
        match skipWs r with
        | '\x7d' :: rest => some (.obj .nil, rest)
        | r2 => match parseMembers fuel r2 [] with
          | some (fs, rest) => some (.obj (JFields.ofList fs), rest)
          | none => none
      else if c = '[' then
        match skipWs r with
        | ']' :: rest => some (.arr .nil, rest)
        | r2 => match parseElems fuel r2 [] with
          | some (vs, rest) => some (.arr (JList.ofList vs), rest)
          | none => none
      else if c = 't' then
        match r with
        | 'r' :: 'u' :: 'e' :: rest => some (.bool true, rest)
        | _ => none
      else if c = 'f' then
        match r with
        | 'a' :: 'l' :: 's' :: 'e' :: rest => some (.bool false, rest)
        | _ => none
      else if c = 'n' then
        match r with
        | 'u' :: 'l' :: 'l' :: rest => some (.null, rest)
        | _ => none
      else
        match parseNumber (c :: r) with
        | some (q, rest) => some (.num (.fin q), rest)
        | none => none
def parseMembers : Nat → List Char → List (String × JVal) →
    Option (List (String × JVal) × List Char)
  | 0, _, _ => none
  | fuel + 1, cs, acc =>
    match skipWs cs with
    | '"' :: r =>
      match parseStringBody (r.length + 1) r [] with
      | some (k, rest) =>
        match skipWs rest with
        | ':' :: r2 =>
          match parseVal fuel r2 with
          | some (v, r3) =>
            match skipWs r3 with
            | ',' :: r4 => parseMembers fuel r4 (insertFld acc k v)
            | '\x7d' :: r4 => some (insertFld acc k v, r4)
            | _ => none
          | none => none
        | _ => none
      | none => none
    | _ => none
def parseElems : Nat → List Char → List JVal → Option (List JVal × List Char)
  | 0, _, _ => none
  | fuel + 1, cs, acc =>
    match parseVal fuel cs with
    | some (v, r) =>
      match skipWs r with
      | ',' :: r2 => parseElems fuel r2 (acc ++ [v])
      | ']' :: r2 => some (acc ++ [v], r2)
      | _ => none
    | none => none
end

/-- JSON.parse: `none` models a thrown `SyntaxError`. -/
def parseJson (s : String) : Option JVal :=
  match parseVal (s.length + 1) s.data with
  | some (v, rest) => if (skipWs rest).isEmpty then some v else none
  | none => none

/-! Error model: `MoviraError` codes from `src/errors/MoviraError.ts`, and
the JS exceptions that can escape a scan (`JSON.parse` SyntaxError, and the
TypeError thrown by reading a property of `null`/`undefined`). -/

inductive ErrorCode where
  | invalidInput
  | walletNotConnected
  | networkError
  | transactionFailed
  | notAuthorized
  | notFound
  | unknown
deriving DecidableEq

inductive JsErr where
  | syntaxError
  | typeError
deriving DecidableEq

/-! Validators from `src/utils/validation.ts` and
`src/invoice/InvoiceValidator.ts`. `now` is the floored epoch-seconds value
`Math.floor(Date.now() / 1000)` at call time. -/

def isValidAmount (value : JsNum) : Bool :=
  value.isFiniteNum && value.gtQ 0

def isValidPublicKeyString (value : String) : Bool :=
  decide (32 ≤ jsLength value) && decide (jsLength value ≤ 44)

def isFutureTimestamp (ts : JsNum) (now : Int) : Bool :=
  ts.gtQ (now : ℚ)

/-- Invoice input; the optional fields model TS optional properties. -/
structure InvoiceInput where
  amount : JsNum
  recipientWallet : String
  dueDate : JsNum
  description : Option String
  issuerName : Option String

/-- Embedding of `validateInvoiceInput`: the `description` guard only fires
for a present, non-empty (truthy) description. -/
def validateInvoiceInput (input : InvoiceInput) (now : Int) : Except ErrorCode Unit :=
  if ! isValidAmount input.amount then .error .invalidInput
  else if ! isValidPublicKeyString input.recipientWallet then .error .invalidInput
  else if ! isFutureTimestamp input.dueDate now then .error .invalidInput
  else
    match input.description with
    | some d =>
      if decide (d ≠ "") && decide (jsLength d > 1024) then .error .invalidInput
      else .ok ()
    | none => .ok ()

def optField (k : String) : Option String → List (String × JVal)
  | some s => [(k, .str s)]
  | none => []

/-- The augmented invoice record `{...input, issuerWallet, createdAt}` built
by `createInvoice`, in property insertion order. -/
def invoicePayload (input : InvoiceInput) (issuerWallet : String) (now : Int) : JVal :=
  .obj (JFields.ofList
    ([("amount", .num input.amount), ("recipientWallet", .str input.recipientWallet),
      ("dueDate", .num input.dueDate)] ++
     optField "description" input.description ++
     optField "issuerName" input.issuerName ++
     [("issuerWallet", .str issuerWallet), ("createdAt", .num (.fin (now : ℚ)))]))

/-- Embedding of `InvoiceService.createInvoice` up to the transport layer:
the ledger submission (sign, send, confirm) is the `submit` collaborator,
whose failure becomes a `transactionFailed` error. Returns
`(invoiceId, txSignature)`. -/
def createInvoice (input : InvoiceInput) (walletPublicKey : Option String) (now : Int)
    (submit : String → Except Unit String) : Except ErrorCode (String × String) :=
  match validateInvoiceInput input now with
  | .error e => .error e
  | .ok _ =>
    match walletPublicKey with
    | none => .error .walletNotConnected
    | some issuerWallet =>
      let serialized := stableStringifyD (invoicePayload input issuerWallet now)
      let invoiceId := sha256Hex serialized
      match submit serialized with
      | .ok sig => .ok (invoiceId, sig)
      | .error _ => .error .transactionFailed

/-- JS property read `parsed.k`: throws a TypeError on `null`/`undefined`,
yields `undefined` on other non-objects and on absent keys. -/
def propGet (v : JVal) (k : String) : Except JsErr JVal :=
  match v with
  | .null => .error .typeError
  | .undefVal => .error .typeError
  | .obj fs => .ok ((fs.get k).getD .undefVal)
  | _ => .ok .undefVal

/-- The canonical-subset object rebuilt by `verifyInvoice` from a parsed
memo record, in the source's insertion order. -/
def recomputeSubset (parsed : JVal) : Except JsErr JVal := do
  let a ← propGet parsed "amount"
  let rw ← propGet parsed "recipientWallet"
  let dd ← propGet parsed "dueDate"
  let de ← propGet parsed "description"
  let inm ← propGet parsed "issuerName"
  let iw ← propGet parsed "issuerWallet"
  let ca ← propGet parsed "createdAt"
  pure (.obj (JFields.ofList
    [("amount", a), ("recipientWallet", rw), ("dueDate", dd), ("description", de),
     ("issuerName", inm), ("issuerWallet", iw), ("createdAt", ca)]))

/-- The identifier `verifyInvoice` recomputes from a parsed memo:
`sha256Hex(stableStringify(subset))`. -/
def recomputeId (parsed : JVal) : Except JsErr String :=
  (recomputeSubset parsed).map (fun o => sha256Hex (stableStringifyD o))

/-- Embedding of the invoiceId branch of `InvoiceService.verifyInvoice`:
scan the wallet's recent entries (an entry is `none` when the transaction
cannot be fetched or carries no memo instruction, else `some memoData`),
`JSON.parse` each memo — a non-JSON memo throws — recompute the identifier
over the fixed field subset, and return the first record whose recomputed
identifier equals the requested one. -/
def verifyScan (invoiceId : String) : List (Option String) → Except JsErr (Option JVal)
  | [] => .ok none
  | none :: rest => verifyScan invoiceId rest
  | some memoData :: rest =>
    match parseJson memoData with
    | none => .error .syntaxError
    | some parsed =>
      match recomputeId parsed with
      | .error e => .error e
      | .ok calcId =>
        if calcId = invoiceId then .ok (some parsed) else verifyScan invoiceId rest

/-- `verifyInvoice({invoiceId})` scans up to 1000 recent entries. -/
def verifyInvoice (chain : List (Option String)) (invoiceId : String) :
    Except JsErr (Option JVal) :=
  verifyScan invoiceId (chain.take 1000)

inductive InvoiceStatus where
  | pending
  | verified
  | financed
  | settled
  | not_found
deriving DecidableEq

/-- The status fold of `getInvoiceStatus` over the scanned entries: a memo
not containing the invoiceId is skipped; a repay-keyword memo returns
`settled` immediately; a loan-keyword memo sets the running status to
`financed` and continues. -/
def invStatusLoop (invoiceId : String) :
    List (Option String) → InvoiceStatus → InvoiceStatus
  | [], st => st
  | none :: rest, st => invStatusLoop invoiceId rest st
  | some memoData :: rest, st =>
    if ! jsIncludes memoData invoiceId then invStatusLoop invoiceId rest st
    else if jsIncludes (lowerAscii memoData) "repay" then .settled
    else if jsIncludes (lowerAscii memoData) "loan" then invStatusLoop invoiceId rest .financed
    else invStatusLoop invoiceId rest st

/-- Embedding of `InvoiceService.getInvoiceStatus`: verify the invoice by
identifier over a 1000-entry window (`not_found` if unverified), then fold
the status heuristics over a 200-entry window starting from `verified`. -/
def getInvoiceStatus (chain : List (Option String)) (invoiceId : String) :
    Except JsErr InvoiceStatus :=
  match verifyScan invoiceId (chain.take 1000) with
  | .error e => .error e
  | .ok none => .ok .not_found
  | .ok (some _) => .ok (invStatusLoop invoiceId (chain.take 200) .verified)

/-! Loans (`src/loan/LoanService.ts`). -/

structure LoanRequest where
  invoiceId : String
  requestedAmount : JsNum
  loanDurationDays : JsNum
  lenderWallet : Option String

/-- The augmented loan record `{...input, borrowerWallet, createdAt}`. -/
def loanPayload (input : LoanRequest) (borrowerWallet : String) (now : Int) : JVal :=
  .obj (JFields.ofList
    ([("invoiceId", .str input.invoiceId), ("requestedAmount", .num input.requestedAmount),
      ("loanDurationDays", .num input.loanDurationDays)] ++
     optField "lenderWallet" input.lenderWallet ++
     [("borrowerWallet", .str borrowerWallet), ("createdAt", .num (.fin (now : ℚ)))]))

/-- Embedding of `LoanService.requestLoan` up to the transport layer. -/
def requestLoan (input : LoanRequest) (walletPublicKey : Option String) (now : Int)
    (submit : String → Except Unit String) : Except ErrorCode (String × String) :=
  match walletPublicKey with
  | none => .error .walletNotConnected
  | some borrowerWallet =>
    if input.invoiceId = "" then .error .invalidInput
    else if ! input.requestedAmount.gtQ 0 then .error .invalidInput
    else
      let serialized := stableStringifyD (loanPayload input borrowerWallet now)
      let loanId := sha256Hex serialized
      match submit serialized with
      | .ok sig => .ok (loanId, sig)
      | .error _ => .error .transactionFailed

inductive LoanStatus where
  | requested
  | active
  | repaid
  | defaulted
  | not_found
deriving DecidableEq

/-- The status fold of `getLoanStatus`: only memos containing the loanId
count; repay returns `repaid` immediately; loan/lend sets `active`, any
other matching memo sets `requested`; with no matching memo at all the
result is `not_found`. -/
def loanStatusLoop (loanId : String) :
    List (Option String) → Bool → LoanStatus → LoanStatus
  | [], found, st => if found then st else .not_found
  | none :: rest, found, st => loanStatusLoop loanId rest found st
  | some memoData :: rest, found, st =>
    if ! jsIncludes memoData loanId then loanStatusLoop loanId rest found st
    else if jsIncludes (lowerAscii memoData) "repay" then .repaid
    else if jsIncludes (lowerAscii memoData) "loan" || jsIncludes (lowerAscii memoData) "lend" then
      loanStatusLoop loanId rest true .active
    else loanStatusLoop loanId rest true .requested

/-- Embedding of `LoanService.getLoanStatus` over a 1000-entry window. -/
def getLoanStatus (chain : List (Option String)) (loanId : String) : LoanStatus :=
  loanStatusLoop loanId (chain.take 1000) false .not_found

/-! Credit simulation (`CreditService.simulateCredit`). -/

/-- Outcome of one oracle fetch: a network/timeout error (caught, next
oracle tried), or a response with its HTTP `ok` flag and JSON body (`none`
when `res.json()` throws, which is also caught). -/
inductive OracleOutcome where
  | netError
  | resp (ok : Bool) (body : Option JVal)

/-- JS truthiness. -/
def truthy : JVal → Bool
  | .undefVal => false
  | .null => false
  | .bool b => b
  | .num .nan => false
  | .num (.inf _) => true
  | .num (.fin q) => decide (q ≠ 0)
  | .str s => decide (s ≠ "")
  | .date _ => true
  | .arr _ => true
  | .obj _ => true

/-- Optional-chaining property read `v?.k`: `undefined` (no throw) on
`null`/`undefined` receivers. -/
def optChain (v : JVal) (k : String) : JVal :=
  match v with
  | .null => .undefVal
  | .undefVal => .undefVal
  | .obj fs => (fs.get k).getD .undefVal
  | _ => .undefVal

/-- The shape test `payload?.borrowingPower && payload?.riskTier &&
payload?.expectedLoanTerms` — a truthiness test, not a presence test. -/
def oracleShapeOk (body : JVal) : Bool :=
  truthy (optChain body "borrowingPower") && truthy (optChain body "riskTier") &&
    truthy (optChain body "expectedLoanTerms")

/-- Embedding of `CreditService.simulateCredit`: try the configured oracle
endpoints in order; skip network errors, non-ok responses, bodies that fail
to parse and bodies failing the truthiness shape test; the first body that
passes is returned; otherwise the local `RiskModel` evaluator's result
(the `fallback` parameter) is returned. -/
def simulateCredit {α : Type} : List OracleOutcome → α → JVal ⊕ α
  | [], fallback => .inr fallback
  | .netError :: rest, fallback => simulateCredit rest fallback
  | .resp false _ :: rest, fallback => simulateCredit rest fallback
  | .resp true none :: rest, fallback => simulateCredit rest fallback
  | .resp true (some body) :: rest, fallback =>
    if oracleShapeOk body then .inl body else simulateCredit rest fallback

/-! Boolean result classifiers (used to keep statements decidable without
an equality decision procedure on `JVal`). -/

instance {ε α : Type} [DecidableEq ε] [DecidableEq α] : DecidableEq (Except ε α)
  | .ok x, .ok y =>
    if h : x = y then isTrue (by rw [h]) else isFalse (fun hh => h (Except.ok.inj hh))
  | .ok _, .error _ => isFalse (fun hh => Except.noConfusion hh)
  | .error _, .ok _ => isFalse (fun hh => Except.noConfusion hh)
  | .error x, .error y =>
    if h : x = y then isTrue (by rw [h]) else isFalse (fun hh => h (Except.error.inj hh))

def verifiedOk : Except JsErr (Option JVal) → Bool
  | .ok (some _) => true
  | _ => false

def scanThrew {α : Type} : Except JsErr α → Bool
  | .error _ => true
  | .ok _ => false

def usedFallback {α : Type} : JVal ⊕ α → Bool
  | .inr _ => true
  | .inl _ => false

/-! Deep structural equality of JSON records ("same keys and values at
every level, in any insertion order") and well-formedness (no duplicate
keys at any object level). -/

/-- Remove the first binding of key `k`, returning its value and the rest. -/
def extractF (k : String) : JFields → Option (JVal × JFields)
  | .nil => none
  | .cons k' v r =>
    if k' = k then some (v, r)
    else (extractF k r).map (fun p => (p.1, .cons k' v p.2))

mutual
/-- Deep equality up to object-field insertion order. -/
def eqvJ : JVal → JVal → Bool
  | .null, .null => true
  | .bool a, .bool b => decide (a = b)
  | .num a, .num b => decide (a = b)
  | .str a, .str b => decide (a = b)
  | .date a, .date b => decide (a = b)
  | .undefVal, .undefVal => true
  | .arr xs, .arr ys => eqvL xs ys
  | .obj fs, .obj gs => eqvF fs gs
  | _, _ => false
def eqvL : JList → JList → Bool
  | .nil, .nil => true
  | .cons v r, .cons w s => eqvJ v w && eqvL r s
  | _, _ => false
def eqvF : JFields → JFields → Bool
  | .nil, .nil => true
  | .cons k v r, gs =>
    match extractF k gs with
    | some (w, gs') => eqvJ v w && eqvF r gs'
    | none => false
  | .nil, .cons _ _ _ => false
end

mutual
/-- Well-formed JSON record: every object level has no duplicate keys. -/
def wfJ : JVal → Bool
  | .arr xs => wfL xs
  | .obj fs => decide fs.keys.Nodup && wfF fs
  | _ => true
def wfL : JList → Bool
  | .nil => true
  | .cons v r => wfJ v && wfL r
def wfF : JFields → Bool
  | .nil => true
  | .cons _ v r => wfJ v && wfF r
end

/-! Order-theoretic facts about the code-unit comparison. -/

theorem unitsLt_asymm : ∀ a b : List Nat, unitsLt a b = true → unitsLt b a = true → False
  | [], [], h, _ => by simp [unitsLt] at h
  | [], _ :: _, _, h' => by simp [unitsLt] at h'
  | _ :: _, [], h, _ => by simp [unitsLt] at h
  | a :: as, b :: bs, h, h' => by
    simp only [unitsLt] at h h'
    rcases Nat.lt_trichotomy a b with hab | hab | hab
    · rw [if_pos hab] at h
      rw [if_neg (Nat.lt_asymm hab), if_pos hab] at h'
      exact absurd h' (by simp)
    · subst hab
      rw [if_neg (Nat.lt_irrefl a), if_neg (Nat.lt_irrefl a)] at h h'
      exact unitsLt_asymm as bs h h'
    · rw [if_neg (Nat.lt_asymm hab), if_pos hab] at h
      exact absurd h (by simp)

theorem unitsLt_trichotomy : ∀ a b : List Nat,
    unitsLt a b = true ∨ unitsLt b a = true ∨ a = b
  | [], [] => by simp [unitsLt]
  | [], _ :: _ => by simp [unitsLt]
  | _ :: _, [] => by simp [unitsLt]
  | a :: as, b :: bs => by
    rcases Nat.lt_trichotomy a b with hab | hab | hab
    · exact Or.inl (by simp [unitsLt, if_pos hab])
    · subst hab
      rcases unitsLt_trichotomy as bs with h | h | h
      · exact Or.inl (by simp [unitsLt, if_neg (Nat.lt_irrefl a), h])
      · exact Or.inr (Or.inl (by simp [unitsLt, if_neg (Nat.lt_irrefl a), h]))
      · exact Or.inr (Or.inr (by rw [h]))
    · exact Or.inr (Or.inl (by simp [unitsLt, if_pos hab]))

theorem unitsLt_trans : ∀ a b c : List Nat,
    unitsLt a b = true → unitsLt b c = true → unitsLt a c = true
  | [], _ :: _, _ :: _, _, _ => by simp [unitsLt]
  | [], [], _, h, _ => by simp [unitsLt] at h
  | [], _ :: _, [], _, h' => by simp [unitsLt] at h'
  | _ :: _, [], _, h, _ => by simp [unitsLt] at h
  | _ :: _, _ :: _, [], _, h' => by simp [unitsLt] at h'
  | a :: as, b :: bs, c :: cs, h, h' => by
    simp only [unitsLt] at h h' ⊢
    rcases Nat.lt_trichotomy a b with hab | hab | hab
    · rcases Nat.lt_trichotomy b c with hbc | hbc | hbc
      · rw [if_pos (Nat.lt_trans hab hbc)]
      · subst hbc; rw [if_pos hab]
      · rw [if_pos hbc, if_neg (Nat.lt_asymm hbc)] at h'
        exact absurd h' (by simp)
    · subst hab
      rcases Nat.lt_trichotomy a c with hac | hac | hac
      · rw [if_pos hac]
      · subst hac
        rw [if_neg (Nat.lt_irrefl a)] at h h' ⊢
        rw [if_neg (Nat.lt_irrefl a)] at h h' ⊢
        exact unitsLt_trans as bs cs h h'
      · rw [if_pos hac, if_neg (Nat.lt_asymm hac)] at h'
        exact absurd h' (by simp)
    · rw [if_neg (Nat.lt_asymm hab), if_pos hab] at h
      exact absurd h (by simp)

/-! Injectivity of the UTF-16 encoding on Unicode-scalar strings. -/

theorem char_scalar_range (c : Char) : c.toNat < 55296 ∨ (57343 < c.toNat ∧ c.toNat < 1114112) := by
  have h := c.valid
  simp only [UInt32.isValidChar, Nat.isValidChar] at h
  exact h

def charsUnits (l : List Char) : List Nat :=
  l.foldr (fun c acc => utf16Chars c ++ acc) []

theorem strUnits_eq_charsUnits (s : String) : strUnits s = charsUnits s.data := rfl

theorem utf16Chars_ne_nil (c : Char) : utf16Chars c ≠ [] := by
  unfold utf16Chars
  by_cases h : c.toNat < 65536 <;> simp [h]

theorem charToNat_inj {c d : Char} (h : c.toNat = d.toNat) : c = d := by
  apply Char.eq_of_val_eq
  apply UInt32.eq_of_toBitVec_eq
  apply BitVec.eq_of_toNat_eq
  exact h

theorem charsUnits_inj : ∀ s t : List Char, charsUnits s = charsUnits t → s = t
  | [], [], _ => rfl
  | [], d :: _, h => by
    exfalso
    simp only [charsUnits, List.foldr] at h
    exact utf16Chars_ne_nil d (by
      rcases List.append_eq_nil.mp h.symm with ⟨h1, _⟩
      exact h1)
  | c :: _, [], h => by
    exfalso
    simp only [charsUnits, List.foldr] at h
    exact utf16Chars_ne_nil c (by
      rcases List.append_eq_nil.mp h with ⟨h1, _⟩
      exact h1)
  | c :: s', d :: t', h => by
    simp only [charsUnits, List.foldr] at h
    have hc := char_scalar_range c
    have hd := char_scalar_range d
    by_cases hc1 : c.toNat < 65536 <;> by_cases hd1 : d.toNat < 65536
    · rw [utf16Chars, if_pos hc1, utf16Chars, if_pos hd1] at h
      simp only [List.cons_append, List.nil_append, List.cons.injEq] at h
      have : c = d := charToNat_inj h.1
      subst this
      rw [charsUnits_inj s' t' h.2]
    · -- head of c is a scalar outside the surrogate block, head of d is a
      -- high surrogate: impossible
      rw [utf16Chars, if_pos hc1, utf16Chars, if_neg hd1] at h
      simp only [List.cons_append, List.nil_append, List.cons.injEq] at h
      exfalso
      omega
    · rw [utf16Chars, if_neg hc1, utf16Chars, if_pos hd1] at h
      simp only [List.cons_append, List.nil_append, List.cons.injEq] at h
      exfalso
      omega
    · rw [utf16Chars, if_neg hc1, utf16Chars, if_neg hd1] at h
      simp only [List.cons_append, List.nil_append, List.cons.injEq] at h
      obtain ⟨h1, h2, h3⟩ := h
      have : c = d := charToNat_inj (by omega)
      subst this
      rw [charsUnits_inj s' t' h3]

theorem strUnits_inj {s t : String} (h : strUnits s = strUnits t) : s = t := by
  cases s with
  | mk sd =>
    cases t with
    | mk td =>
      have : sd = td := charsUnits_inj sd td h
      rw [this]

/-! The pair orderings used to sort object keys, and uniqueness of the
sorted form for duplicate-free key sets. -/

def keyLt (a b : String × JVal) : Prop := unitsLt (strUnits a.1) (strUnits b.1) = true

instance : IsTotal (String × JVal) keyLe :=
  ⟨fun a b => by
    unfold keyLe jsStrLe
    simp only [Bool.not_eq_true']
    cases hx : unitsLt (strUnits b.1) (strUnits a.1) with
    | false => exact Or.inl rfl
    | true =>
      cases hy : unitsLt (strUnits a.1) (strUnits b.1) with
      | false => exact Or.inr rfl
      | true => exact (unitsLt_asymm _ _ hy hx).elim⟩

instance : IsTrans (String × JVal) keyLe :=
  ⟨fun a b c hab hbc => by
    unfold keyLe jsStrLe at *
    simp only [Bool.not_eq_true'] at hab hbc ⊢
    cases hca : unitsLt (strUnits c.1) (strUnits a.1) with
    | false => rfl
    | true =>
      exfalso
      rcases unitsLt_trichotomy (strUnits a.1) (strUnits b.1) with h | h | h
      · have hcb := unitsLt_trans _ _ _ hca h
        rw [hcb] at hbc
        exact Bool.noConfusion hbc
      · rw [h] at hab
        exact Bool.noConfusion hab
      · rw [h] at hca
        rw [hca] at hbc
        exact Bool.noConfusion hbc⟩

instance : IsAntisymm (String × JVal) keyLt :=
  ⟨fun a b hab hba => (unitsLt_asymm _ _ hab hba).elim⟩

theorem toList_map_fst_eq_keys : ∀ fs : JFields,
    (JFields.toList fs).map Prod.fst = fs.keys
  | .nil => rfl
  | .cons k v r => by simp [JFields.toList, JFields.keys, toList_map_fst_eq_keys r]

theorem sortVals_keys : ∀ fs : JFields, (sortVals fs).keys = fs.keys
  | .nil => rfl
  | .cons k v r => by simp [sortVals, JFields.keys, sortVals_keys r]

theorem sorted_strict {l : List (String × JVal)}
    (hn : (l.map Prod.fst).Nodup) (hs : List.Sorted keyLe l) : List.Sorted keyLt l := by
  have hnp : List.Pairwise (fun a b : String × JVal => a.1 ≠ b.1) l :=
    List.pairwise_map.mp hn
  refine (hs.and hnp).imp ?step
  rintro a b ⟨hle, hne⟩
  unfold keyLe jsStrLe at hle
  simp only [Bool.not_eq_true'] at hle
  rcases unitsLt_trichotomy (strUnits a.1) (strUnits b.1) with h | h | h
  · exact h
  · rw [h] at hle
    exact Bool.noConfusion hle
  · exact absurd (strUnits_inj h) hne

theorem sortPairs_perm_eq {l1 l2 : List (String × JVal)}
    (hp : l1.Perm l2) (hn : (l1.map Prod.fst).Nodup) : sortPairs l1 = sortPairs l2 := by
  have p1 : (sortPairs l1).Perm l1 := List.perm_insertionSort keyLe l1
  have p2 : (sortPairs l2).Perm l2 := List.perm_insertionSort keyLe l2
  have p12 : (sortPairs l1).Perm (sortPairs l2) := p1.trans (hp.trans p2.symm)
  have hn2 : (l2.map Prod.fst).Nodup := ((hp.map Prod.fst).nodup_iff).mp hn
  have hs1 : List.Sorted keyLt (sortPairs l1) :=
    sorted_strict (((p1.map Prod.fst).nodup_iff).mpr hn)
      (List.sorted_insertionSort keyLe l1)
  have hs2 : List.Sorted keyLt (sortPairs l2) :=
    sorted_strict (((p2.map Prod.fst).nodup_iff).mpr hn2)
      (List.sorted_insertionSort keyLe l2)
  exact List.eq_of_perm_of_sorted p12 hs1 hs2

theorem extractF_wf {k : String} :
    ∀ (gs : JFields) {gs' : JFields} {w : JVal}, extractF k gs = some (w, gs') →
      wfF gs = true → wfJ w = true ∧ wfF gs' = true
  | .nil, _, _, h, _ => by simp [extractF] at h
  | .cons k' v r, gs', w, h, hw => by
    simp only [extractF] at h
    simp only [wfF, Bool.and_eq_true] at hw
    by_cases hk : k' = k
    · rw [if_pos hk] at h
      cases h
      exact ⟨hw.1, hw.2⟩
    · rw [if_neg hk] at h
      cases hx : extractF k r with
      | none => rw [hx] at h; simp [Option.map] at h
      | some p =>
        obtain ⟨w1, gs1⟩ := p
        rw [hx] at h
        simp only [Option.map, Option.some.injEq] at h
        cases h
        have hrec := extractF_wf r hx hw.2
        exact ⟨hrec.1, by simp [wfF, hw.1, hrec.2]⟩

theorem extractF_sortVals_perm {k : String} :
    ∀ (gs : JFields) {gs' : JFields} {w : JVal}, extractF k gs = some (w, gs') →
      (JFields.toList (sortVals gs)).Perm
        ((k, sortObject w) :: JFields.toList (sortVals gs'))
  | .nil, _, _, h => by simp [extractF] at h
  | .cons k' v r, gs', w, h => by
    simp only [extractF] at h
    by_cases hk : k' = k
    · rw [if_pos hk] at h
      cases h
      subst hk
      simp [sortVals, JFields.toList]
    · rw [if_neg hk] at h
      cases hx : extractF k r with
      | none => rw [hx] at h; simp [Option.map] at h
      | some p =>
        obtain ⟨w1, gs1⟩ := p
        rw [hx] at h
        simp only [Option.map, Option.some.injEq] at h
        cases h
        have hperm := extractF_sortVals_perm r hx
        simp only [sortVals, JFields.toList]
        exact (hperm.cons _).trans (List.Perm.swap _ _ _)

mutual
theorem sortObject_eqv : ∀ (v w : JVal), eqvJ v w = true → wfJ v = true → wfJ w = true →
    sortObject v = sortObject w
  | .null, w, h, _, _ => by cases w <;> simp_all [eqvJ]
  | .bool a, w, h, _, _ => by cases w <;> simp_all [eqvJ, sortObject]
  | .num a, w, h, _, _ => by cases w <;> simp_all [eqvJ, sortObject]
  | .str a, w, h, _, _ => by cases w <;> simp_all [eqvJ, sortObject]
  | .date a, w, h, _, _ => by cases w <;> simp_all [eqvJ, sortObject]
  | .undefVal, w, h, _, _ => by cases w <;> simp_all [eqvJ]
  | .arr xs, w, h, hw1, hw2 => by
    cases w with
    | arr ys =>
      have hl : sortArr xs = sortArr ys :=
        sortArr_eqv xs ys (by simpa [eqvJ] using h) (by simpa [wfJ] using hw1)
          (by simpa [wfJ] using hw2)
      simp [sortObject, hl]
    | null | bool _ | num _ | str _ | date _ | undefVal | obj _ => simp_all [eqvJ]
  | .obj fs, w, h, hw1, hw2 => by
    cases w with
    | obj gs =>
      have hperm : (JFields.toList (sortVals fs)).Perm (JFields.toList (sortVals gs)) :=
        sortVals_eqv fs gs (by simpa [eqvJ] using h)
          (by simp only [wfJ, Bool.and_eq_true] at hw1; exact hw1.2)
          (by simp only [wfJ, Bool.and_eq_true] at hw2; exact hw2.2)
      have hnod : ((JFields.toList (sortVals fs)).map Prod.fst).Nodup := by
        rw [toList_map_fst_eq_keys, sortVals_keys]
        simp only [wfJ, Bool.and_eq_true] at hw1
        exact of_decide_eq_true hw1.1
      have : sortPairs (JFields.toList (sortVals fs)) =
          sortPairs (JFields.toList (sortVals gs)) := sortPairs_perm_eq hperm hnod
      simp [sortObject, this]
    | null | bool _ | num _ | str _ | date _ | undefVal | arr _ => simp_all [eqvJ]
theorem sortArr_eqv : ∀ (xs ys : JList), eqvL xs ys = true → wfL xs = true → wfL ys = true →
    sortArr xs = sortArr ys
  | .nil, ys, h, _, _ => by cases ys <;> simp_all [eqvL]
  | .cons v r, ys, h, hw1, hw2 => by
    cases ys with
    | nil => simp_all [eqvL]
    | cons w s =>
      simp only [eqvL, Bool.and_eq_true] at h
      simp only [wfL, Bool.and_eq_true] at hw1 hw2
      have h1 := sortObject_eqv v w h.1 hw1.1 hw2.1
      have h2 := sortArr_eqv r s h.2 hw1.2 hw2.2
      simp [sortArr, h1, h2]
theorem sortVals_eqv : ∀ (fs gs : JFields), eqvF fs gs = true → wfF fs = true → wfF gs = true →
    (JFields.toList (sortVals fs)).Perm (JFields.toList (sortVals gs))
  | .nil, gs, h, _, _ => by cases gs <;> simp_all [eqvF, sortVals, JFields.toList]
  | .cons k v r, gs, h, hw1, hw2 => by
    simp only [eqvF] at h
    cases hx : extractF k gs with
    | none => rw [hx] at h; simp at h
    | some p =>
      obtain ⟨w1, gs1⟩ := p
      rw [hx] at h
      simp only [Bool.and_eq_true] at h
      simp only [wfF, Bool.and_eq_true] at hw1
      have hwp := extractF_wf gs hx hw2
      have hv : sortObject v = sortObject w1 := sortObject_eqv v w1 h.1 hw1.1 hwp.1
      have htail : (JFields.toList (sortVals r)).Perm (JFields.toList (sortVals gs1)) :=
        sortVals_eqv r gs1 h.2 hw1.2 hwp.2
      have hbridge := extractF_sortVals_perm gs hx
      show ((k, sortObject v) :: JFields.toList (sortVals r)).Perm (JFields.toList (sortVals gs))
      rw [hv]
      exact (htail.cons _).trans hbridge.symm
end

/-- Canonicalization is insertion-order independent on duplicate-free
records: deep-equal records have identical canonical serializations. -/
theorem stableStringify_eqv {v w : JVal} (he : eqvJ v w = true)
    (h1 : wfJ v = true) (h2 : wfJ w = true) : stableStringify v = stableStringify w := by
  unfold stableStringify
  rw [sortObject_eqv v w he h1 h2]

/-- The canonical field list produced for an object level. -/
def canonFields (fs : JFields) : List (String × JVal) :=
  jsEnumOrder (sortPairs (JFields.toList (sortVals fs)))

instance : IsTotal (String × JVal) idxLe :=
  ⟨fun a b => Nat.le_total (keyIndexVal a.1) (keyIndexVal b.1)⟩

instance : IsTrans (String × JVal) idxLe :=
  ⟨fun _ _ _ hab hbc => Nat.le_trans hab hbc⟩

theorem canonFields_shape (fs : JFields) :
    ∃ idx rest, canonFields fs = idx ++ rest
      ∧ (∀ kv ∈ idx, isArrayIndexKey kv.1 = true)
      ∧ (∀ kv ∈ rest, isArrayIndexKey kv.1 = false)
      ∧ List.Sorted idxLe idx ∧ List.Sorted keyLe rest := by
  refine ⟨List.insertionSort idxLe
      ((sortPairs (JFields.toList (sortVals fs))).filter (fun kv => isArrayIndexKey kv.1)),
    (sortPairs (JFields.toList (sortVals fs))).filter (fun kv => ! isArrayIndexKey kv.1),
    rfl, ?idxmem, ?restmem, ?idxsorted, ?restsorted⟩
  · intro kv hkv
    have hmem := (List.perm_insertionSort idxLe _).mem_iff.mp hkv
    exact (List.mem_filter.mp hmem).2
  · intro kv hkv
    simpa using (List.mem_filter.mp hkv).2
  · exact List.sorted_insertionSort idxLe _
  · exact (List.sorted_insertionSort keyLe _).filter _

/-! Build/verify round-trip (C2): the canonical-subset recomputation done
by `verifyInvoice` on the submitted payload reproduces the invoiceId. -/

set_option maxHeartbeats 2000000 in
theorem recomputeId_invoicePayload (input : InvoiceInput) (issuer : String) (now : Int) :
    recomputeId (invoicePayload input issuer now) =
      .ok (sha256Hex (stableStringifyD (invoicePayload input issuer now))) := by
  rcases input with ⟨am, rc, dd, de, inm⟩
  cases de with
  | none =>
    cases inm with
    | none =>
      have h1 : recomputeSubset (invoicePayload ⟨am, rc, dd, none, none⟩ issuer now) =
          .ok (.obj (JFields.ofList
            [("amount", .num am), ("recipientWallet", .str rc), ("dueDate", .num dd),
             ("description", .undefVal), ("issuerName", .undefVal), ("issuerWallet", .str issuer),
             ("createdAt", .num (.fin (now : ℚ)))])) := rfl
      have h2 : sortObject (.obj (JFields.ofList
            [("amount", .num am), ("recipientWallet", .str rc), ("dueDate", .num dd),
             ("description", .undefVal), ("issuerName", .undefVal), ("issuerWallet", .str issuer),
             ("createdAt", .num (.fin (now : ℚ)))])) =
          .obj (JFields.ofList
            [("amount", .num am), ("createdAt", .num (.fin (now : ℚ))),
             ("description", .undefVal), ("dueDate", .num dd), ("issuerName", .undefVal),
             ("issuerWallet", .str issuer), ("recipientWallet", .str rc)]) := rfl
      have h3 : sortObject (invoicePayload ⟨am, rc, dd, none, none⟩ issuer now) =
          .obj (JFields.ofList
            [("amount", .num am), ("createdAt", .num (.fin (now : ℚ))),
             ("dueDate", .num dd), ("issuerWallet", .str issuer),
             ("recipientWallet", .str rc)]) := rfl
      have h4 : renderJ (.obj (JFields.ofList
            [("amount", .num am), ("createdAt", .num (.fin (now : ℚ))),
             ("description", .undefVal), ("dueDate", .num dd), ("issuerName", .undefVal),
             ("issuerWallet", .str issuer), ("recipientWallet", .str rc)])) =
          renderJ (.obj (JFields.ofList
            [("amount", .num am), ("createdAt", .num (.fin (now : ℚ))),
             ("dueDate", .num dd), ("issuerWallet", .str issuer),
             ("recipientWallet", .str rc)])) := rfl
      have hstr : stableStringifyD (.obj (JFields.ofList
            [("amount", .num am), ("recipientWallet", .str rc), ("dueDate", .num dd),
             ("description", .undefVal), ("issuerName", .undefVal), ("issuerWallet", .str issuer),
             ("createdAt", .num (.fin (now : ℚ)))])) =
          stableStringifyD (invoicePayload ⟨am, rc, dd, none, none⟩ issuer now) := by
        unfold stableStringifyD stableStringify
        rw [h2, h4, ← h3]
      rw [recomputeId, h1]
      simp only [Except.map]
      rw [hstr]
    | some nm =>
      have h1 : recomputeSubset (invoicePayload ⟨am, rc, dd, none, some nm⟩ issuer now) =
          .ok (.obj (JFields.ofList
            [("amount", .num am), ("recipientWallet", .str rc), ("dueDate", .num dd),
             ("description", .undefVal), ("issuerName", .str nm), ("issuerWallet", .str issuer),
             ("createdAt", .num (.fin (now : ℚ)))])) := rfl
      have h2 : sortObject (.obj (JFields.ofList
            [("amount", .num am), ("recipientWallet", .str rc), ("dueDate", .num dd),
             ("description", .undefVal), ("issuerName", .str nm), ("issuerWallet", .str issuer),
             ("createdAt", .num (.fin (now : ℚ)))])) =
          .obj (JFields.ofList
            [("amount", .num am), ("createdAt", .num (.fin (now : ℚ))),
             ("description", .undefVal), ("dueDate", .num dd), ("issuerName", .str nm),
             ("issuerWallet", .str issuer), ("recipientWallet", .str rc)]) := rfl
      have h3 : sortObject (invoicePayload ⟨am, rc, dd, none, some nm⟩ issuer now) =
          .obj (JFields.ofList
            [("amount", .num am), ("createdAt", .num (.fin (now : ℚ))),
             ("dueDate", .num dd), ("issuerName", .str nm),
             ("issuerWallet", .str issuer), ("recipientWallet", .str rc)]) := rfl
      have h4 : renderJ (.obj (JFields.ofList
            [("amount", .num am), ("createdAt", .num (.fin (now : ℚ))),
             ("description", .undefVal), ("dueDate", .num dd), ("issuerName", .str nm),
             ("issuerWallet", .str issuer), ("recipientWallet", .str rc)])) =
          renderJ (.obj (JFields.ofList
            [("amount", .num am), ("createdAt", .num (.fin (now : ℚ))),
             ("dueDate", .num dd), ("issuerName", .str nm),
             ("issuerWallet", .str issuer), ("recipientWallet", .str rc)])) := rfl
      have hstr : stableStringifyD (.obj (JFields.ofList
            [("amount", .num am), ("recipientWallet", .str rc), ("dueDate", .num dd),
             ("description", .undefVal), ("issuerName", .str nm), ("issuerWallet", .str issuer),
             ("createdAt", .num (.fin (now : ℚ)))])) =
          stableStringifyD (invoicePayload ⟨am, rc, dd, none, some nm⟩ issuer now) := by
        unfold stableStringifyD stableStringify
        rw [h2, h4, ← h3]
      rw [recomputeId, h1]
      simp only [Except.map]
      rw [hstr]
  | some d =>
    cases inm with
    | none =>
      have h1 : recomputeSubset (invoicePayload ⟨am, rc, dd, some d, none⟩ issuer now) =
          .ok (.obj (JFields.ofList
            [("amount", .num am), ("recipientWallet", .str rc), ("dueDate", .num dd),
             ("description", .str d), ("issuerName", .undefVal), ("issuerWallet", .str issuer),
             ("createdAt", .num (.fin (now : ℚ)))])) := rfl
      have h2 : sortObject (.obj (JFields.ofList
            [("amount", .num am), ("recipientWallet", .str rc), ("dueDate", .num dd),
             ("description", .str d), ("issuerName", .undefVal), ("issuerWallet", .str issuer),
             ("createdAt", .num (.fin (now : ℚ)))])) =
          .obj (JFields.ofList
            [("amount", .num am), ("createdAt", .num (.fin (now : ℚ))),
             ("description", .str d), ("dueDate", .num dd), ("issuerName", .undefVal),
             ("issuerWallet", .str issuer), ("recipientWallet", .str rc)]) := rfl
      have h3 : sortObject (invoicePayload ⟨am, rc, dd, some d, none⟩ issuer now) =
          .obj (JFields.ofList
            [("amount", .num am), ("createdAt", .num (.fin (now : ℚ))),
             ("description", .str d), ("dueDate", .num dd),
             ("issuerWallet", .str issuer), ("recipientWallet", .str rc)]) := rfl
      have h4 : renderJ (.obj (JFields.ofList
            [("amount", .num am), ("createdAt", .num (.fin (now : ℚ))),
             ("description", .str d), ("dueDate", .num dd), ("issuerName", .undefVal),
             ("issuerWallet", .str issuer), ("recipientWallet", .str rc)])) =
          renderJ (.obj (JFields.ofList
            [("amount", .num am), ("createdAt", .num (.fin (now : ℚ))),
             ("description", .str d), ("dueDate", .num dd),
             ("issuerWallet", .str issuer), ("recipientWallet", .str rc)])) := rfl
      have hstr : stableStringifyD (.obj (JFields.ofList
            [("amount", .num am), ("recipientWallet", .str rc), ("dueDate", .num dd),
             ("description", .str d), ("issuerName", .undefVal), ("issuerWallet", .str issuer),
             ("createdAt", .num (.fin (now : ℚ)))])) =
          stableStringifyD (invoicePayload ⟨am, rc, dd, some d, none⟩ issuer now) := by
        unfold stableStringifyD stableStringify
        rw [h2, h4, ← h3]
      rw [recomputeId, h1]
      simp only [Except.map]
      rw [hstr]
    | some nm =>
      have h1 : recomputeSubset (invoicePayload ⟨am, rc, dd, some d, some nm⟩ issuer now) =
          .ok (.obj (JFields.ofList
            [("amount", .num am), ("recipientWallet", .str rc), ("dueDate", .num dd),
             ("description", .str d), ("issuerName", .str nm), ("issuerWallet", .str issuer),
             ("createdAt", .num (.fin (now : ℚ)))])) := rfl
      have hstr : stableStringifyD (.obj (JFields.ofList
            [("amount", .num am), ("recipientWallet", .str rc), ("dueDate", .num dd),
             ("description", .str d), ("issuerName", .str nm), ("issuerWallet", .str issuer),
             ("createdAt", .num (.fin (now : ℚ)))])) =
          stableStringifyD (invoicePayload ⟨am, rc, dd, some d, some nm⟩ issuer now) := by
        unfold stableStringifyD stableStringify
        have h2 : sortObject (.obj (JFields.ofList
              [("amount", .num am), ("recipientWallet", .str rc), ("dueDate", .num dd),
               ("description", .str d), ("issuerName", .str nm), ("issuerWallet", .str issuer),
               ("createdAt", .num (.fin (now : ℚ)))])) =
            sortObject (invoicePayload ⟨am, rc, dd, some d, some nm⟩ issuer now) := rfl
        rw [h2]
      rw [recomputeId, h1]
      simp only [Except.map]
      rw [hstr]

/-! Concrete fixtures used by counterexamples and witnesses. -/

/-- A concrete valid invoice input. -/
def cInput : InvoiceInput :=
  ⟨.fin 2, String.mk (List.replicate 44 'A'), .fin 1800000000, some "Services", none⟩

def cIssuer : String := String.mk (List.replicate 44 'C')

def cNow : Int := 1700000000

/-- The memo bytes `createInvoice` submits for `cInput`. -/
def cSer : String := stableStringifyD (invoicePayload cInput cIssuer cNow)

/-- The invoiceId `createInvoice` returns for `cInput`. -/
def cId : String := sha256Hex cSer

/-- A repay-flavored memo referencing `cId`. -/
def cRepayMemo : String := "\x7b\"type\":\"repay\",\"invoiceId\":\"" ++ cId ++ "\"\x7d"

/-- A concrete valid loan request. -/
def cLoanInput : LoanRequest := ⟨"aa", .fin 5, .fin 30, none⟩

def cBorrower : String := "BorrowerWallet1111111111111111111111111111"

/-- The memo bytes `requestLoan` submits for `cLoanInput`. -/
def cLoanSer : String := stableStringifyD (loanPayload cLoanInput cBorrower cNow)

/-- U+10000, the first astral-plane scalar: one character, two UTF-16 units. -/
def astralChar : Char := Char.ofNat 65536

def cAstral20 : String := String.mk (List.replicate 20 astralChar)

def cDesc513 : String := String.mk (List.replicate 513 astralChar)

def cBigDescInput : InvoiceInput :=
  ⟨.fin 1, String.mk (List.replicate 44 'A'), .fin 1800000000, some cDesc513, none⟩

/-! Scan lemmas for the status-derivation engines. -/

theorem invStatusLoop_settled (invoiceId : String) :
    ∀ (l : List (Option String)) (st : InvoiceStatus),
      (∃ s, some s ∈ l ∧ jsIncludes s invoiceId = true ∧
        jsIncludes (lowerAscii s) "repay" = true) →
      invStatusLoop invoiceId l st = .settled := by
  intro l
  induction l with
  | nil =>
    rintro st ⟨s, hs, _, _⟩
    simp at hs
  | cons e rest ih =>
    rintro st ⟨s, hs, hinc, hrep⟩
    rcases List.mem_cons.mp hs with he | he
    · subst he
      simp [invStatusLoop, hinc, hrep]
    · cases e with
      | none => exact ih st ⟨s, he, hinc, hrep⟩
      | some m =>
        by_cases h1 : jsIncludes m invoiceId = true
        · by_cases h2 : jsIncludes (lowerAscii m) "repay" = true
          · simp [invStatusLoop, h1, h2]
          · by_cases h3 : jsIncludes (lowerAscii m) "loan" = true
            · rw [show invStatusLoop invoiceId (some m :: rest) st =
                invStatusLoop invoiceId rest .financed by
                  simp [invStatusLoop, h1, h2, h3]]
              exact ih _ ⟨s, he, hinc, hrep⟩
            · rw [show invStatusLoop invoiceId (some m :: rest) st =
                invStatusLoop invoiceId rest st by
                  simp [invStatusLoop, h1, h2, h3]]
              exact ih _ ⟨s, he, hinc, hrep⟩
        · rw [show invStatusLoop invoiceId (some m :: rest) st =
            invStatusLoop invoiceId rest st by simp [invStatusLoop, h1]]
          exact ih _ ⟨s, he, hinc, hrep⟩

theorem invStatusLoop_ne_pending (invoiceId : String) :
    ∀ (l : List (Option String)) (st : InvoiceStatus), st ≠ .pending →
      invStatusLoop invoiceId l st ≠ .pending := by
  intro l
  induction l with
  | nil => intro st h; simpa [invStatusLoop] using h
  | cons e rest ih =>
    intro st h
    cases e with
    | none => exact ih st h
    | some m =>
      by_cases h1 : jsIncludes m invoiceId = true
      · by_cases h2 : jsIncludes (lowerAscii m) "repay" = true
        · simp [invStatusLoop, h1, h2]
        · by_cases h3 : jsIncludes (lowerAscii m) "loan" = true
          · rw [show invStatusLoop invoiceId (some m :: rest) st =
              invStatusLoop invoiceId rest .financed by simp [invStatusLoop, h1, h2, h3]]
            exact ih _ (by simp)
          · rw [show invStatusLoop invoiceId (some m :: rest) st =
              invStatusLoop invoiceId rest st by simp [invStatusLoop, h1, h2, h3]]
            exact ih _ h
      · rw [show invStatusLoop invoiceId (some m :: rest) st =
          invStatusLoop invoiceId rest st by simp [invStatusLoop, h1]]
        exact ih _ h

theorem loanStatusLoop_found_ne_not_found (loanId : String) :
    ∀ (l : List (Option String)) (st : LoanStatus), st ≠ .not_found →
      loanStatusLoop loanId l true st ≠ .not_found := by
  intro l
  induction l with
  | nil => intro st h; simpa [loanStatusLoop] using h
  | cons e rest ih =>
    intro st h
    cases e with
    | none => exact ih st h
    | some m =>
      by_cases h1 : jsIncludes m loanId = true
      · by_cases h2 : jsIncludes (lowerAscii m) "repay" = true
        · simp [loanStatusLoop, h1, h2]
        · by_cases h3 : (jsIncludes (lowerAscii m) "loan" || jsIncludes (lowerAscii m) "lend") = true
          · rw [show loanStatusLoop loanId (some m :: rest) true st =
              loanStatusLoop loanId rest true .active by
                simp only [loanStatusLoop, h1, h2]
                simp [h3]]
            exact ih _ (by simp)
          · rw [show loanStatusLoop loanId (some m :: rest) true st =
              loanStatusLoop loanId rest true .requested by
                simp only [loanStatusLoop, h1, h2]
                simp [h3]]
            exact ih _ (by simp)
      · rw [show loanStatusLoop loanId (some m :: rest) true st =
          loanStatusLoop loanId rest true st by simp [loanStatusLoop, h1]]
        exact ih _ h

theorem loanStatusLoop_not_found_iff (loanId : String) :
    ∀ l : List (Option String),
      (loanStatusLoop loanId l false .not_found = .not_found ↔
        ∀ s, some s ∈ l → jsIncludes s loanId = false) := by
  intro l
  induction l with
  | nil => simp [loanStatusLoop]
  | cons e rest ih =>
    cases e with
    | none =>
      rw [show loanStatusLoop loanId (none :: rest) false .not_found =
        loanStatusLoop loanId rest false .not_found from rfl]
      rw [ih]
      constructor
      · intro h s hs
        exact h s (by simpa using hs)
      · intro h s hs
        exact h s (List.mem_cons_of_mem _ hs)
    | some m =>
      by_cases h1 : jsIncludes m loanId = true
      · by_cases h2 : jsIncludes (lowerAscii m) "repay" = true
        · rw [show loanStatusLoop loanId (some m :: rest) false .not_found = .repaid by
            simp [loanStatusLoop, h1, h2]]
          constructor
          · intro h; exact absurd h (by simp)
          · intro h
            have := h m (by simp)
            rw [h1] at this
            exact absurd this (by simp)
        · by_cases h3 : (jsIncludes (lowerAscii m) "loan" || jsIncludes (lowerAscii m) "lend") = true
          · rw [show loanStatusLoop loanId (some m :: rest) false .not_found =
              loanStatusLoop loanId rest true .active by
                simp only [loanStatusLoop, h1, h2]
                simp [h3]]
            constructor
            · intro h
              exact absurd h (loanStatusLoop_found_ne_not_found loanId rest .active (by simp))
            · intro h
              have := h m (by simp)
              rw [h1] at this
              exact absurd this (by simp)
          · rw [show loanStatusLoop loanId (some m :: rest) false .not_found =
              loanStatusLoop loanId rest true .requested by
                simp only [loanStatusLoop, h1, h2]
                simp [h3]]
            constructor
            · intro h
              exact absurd h (loanStatusLoop_found_ne_not_found loanId rest .requested (by simp))
            · intro h
              have := h m (by simp)
              rw [h1] at this
              exact absurd this (by simp)
      · rw [show loanStatusLoop loanId (some m :: rest) false .not_found =
          loanStatusLoop loanId rest false .not_found by simp [loanStatusLoop, h1]]
        rw [ih]
        constructor
        · intro h s hs
          rcases List.mem_cons.mp hs with he | he
          · cases he
            simpa using h1
          · exact h s he
        · intro h s hs
          exact h s (List.mem_cons_of_mem _ hs)

theorem loanStatusLoop_ne_defaulted (loanId : String) :
    ∀ (l : List (Option String)) (found : Bool) (st : LoanStatus), st ≠ .defaulted →
      loanStatusLoop loanId l found st ≠ .defaulted := by
  intro l
  induction l with
  | nil =>
    intro found st h
    cases found <;> simp [loanStatusLoop, h]
  | cons e rest ih =>
    intro found st h
    cases e with
    | none => exact ih found st h
    | some m =>
      by_cases h1 : jsIncludes m loanId = true
      · by_cases h2 : jsIncludes (lowerAscii m) "repay" = true
        · simp [loanStatusLoop, h1, h2]
        · by_cases h3 : (jsIncludes (lowerAscii m) "loan" || jsIncludes (lowerAscii m) "lend") = true
          · rw [show loanStatusLoop loanId (some m :: rest) found st =
              loanStatusLoop loanId rest true .active by
                simp only [loanStatusLoop, h1, h2]
                simp [h3]]
            exact ih _ _ (by simp)
          · rw [show loanStatusLoop loanId (some m :: rest) found st =
              loanStatusLoop loanId rest true .requested by
                simp only [loanStatusLoop, h1, h2]
                simp [h3]]
            exact ih _ _ (by simp)
      · rw [show loanStatusLoop loanId (some m :: rest) found st =
          loanStatusLoop loanId rest found st by simp [loanStatusLoop, h1]]
        exact ih _ _ h

/-- Classifier for one memo under the verify recomputation: `some c` when the
memo parses as JSON and the subset recomputation yields `c` without
throwing; `none` when parsing or the recomputation throws. -/
def memoRecomputeOk (s : String) : Option String :=
  match parseJson s with
  | none => none
  | some p =>
    match recomputeId p with
    | .ok c => some c
    | .error _ => none

theorem verifyScan_skip {invoiceId s : String} {c : String}
    (hc : memoRecomputeOk s = some c) (hne : c ≠ invoiceId) (rest : List (Option String)) :
    verifyScan invoiceId (some s :: rest) = verifyScan invoiceId rest := by
  cases hp : parseJson s with
  | none => simp [memoRecomputeOk, hp] at hc
  | some p =>
    cases hr : recomputeId p with
    | error e => simp [memoRecomputeOk, hp, hr] at hc
    | ok c' =>
      simp only [memoRecomputeOk, hp, hr, Option.some.injEq] at hc
      subst hc
      simp [verifyScan, hp, hr, hne]

theorem verifyScan_malformed_throws {invoiceId s : String}
    (hp : parseJson s = none) (rest : List (Option String)) :
    verifyScan invoiceId (some s :: rest) = .error .syntaxError := by
  simp [verifyScan, hp]

theorem getInvoiceStatus_propagates_error {chain : List (Option String)} {invoiceId : String}
    (h : scanThrew (verifyScan invoiceId (chain.take 1000)) = true) :
    scanThrew (getInvoiceStatus chain invoiceId) = true := by
  unfold getInvoiceStatus
  cases hv : verifyScan invoiceId (chain.take 1000) with
  | error e => simp [scanThrew]
  | ok r => rw [hv] at h; simp [scanThrew] at h

theorem verifyScan_absent (invoiceId : String) :
    ∀ l : List (Option String),
      (∀ s, some s ∈ l → memoRecomputeOk s ≠ none ∧ memoRecomputeOk s ≠ some invoiceId) →
      verifyScan invoiceId l = .ok none := by
  intro l
  induction l with
  | nil => intro _; rfl
  | cons e rest ih =>
    intro h
    cases e with
    | none =>
      rw [show verifyScan invoiceId (none :: rest) = verifyScan invoiceId rest from rfl]
      exact ih (fun s hs => h s (List.mem_cons_of_mem _ hs))
    | some m =>
      have hm := h m (by simp)
      cases hc : memoRecomputeOk m with
      | none => exact absurd hc hm.1
      | some c =>
        have hne : c ≠ invoiceId := by
          intro hh
          subst hh
          exact hm.2 hc
        rw [verifyScan_skip hc hne]
        exact ih (fun s hs => h s (List.mem_cons_of_mem _ hs))

/-! Validation characterization (C6). -/

/-- The in-range conditions named by the validation-boundaries claim, with
string length measured as the code does (UTF-16 code units). -/
def inRangeInput (input : InvoiceInput) (now : Int) : Prop :=
  isValidAmount input.amount = true ∧
    isValidPublicKeyString input.recipientWallet = true ∧
    isFutureTimestamp input.dueDate now = true ∧
    (∀ d, input.description = some d → d = "" ∨ jsLength d ≤ 1024)

theorem validate_ok_iff (input : InvoiceInput) (now : Int) :
    validateInvoiceInput input now = .ok () ↔ inRangeInput input now := by
  unfold validateInvoiceInput inRangeInput
  cases h1 : isValidAmount input.amount with
  | false => simp [h1]
  | true =>
    simp only [h1, Bool.not_true, Bool.false_eq_true, if_false]
    cases h2 : isValidPublicKeyString input.recipientWallet with
    | false => simp [h2]
    | true =>
      simp only [h2, Bool.not_true, Bool.false_eq_true, if_false]
      cases h3 : isFutureTimestamp input.dueDate now with
      | false => simp [h3]
      | true =>
        simp only [h3, Bool.not_true, Bool.false_eq_true, if_false]
        cases hdesc : input.description with
        | none =>
          simp only [true_and]
          constructor
          · intro _ d hd
            exact Option.noConfusion hd
          · intro _
            trivial
        | some d =>
          cases h4 : (decide (d ≠ "") && decide (jsLength d > 1024)) with
          | true =>
            simp only [h4, if_true]
            constructor
            · intro h
              exact absurd h (by simp)
            · rintro ⟨_, _, _, hdcl⟩
              simp only [Bool.and_eq_true, decide_eq_true_eq] at h4
              rcases hdcl d rfl with he | hle
              · exact absurd he h4.1
              · omega
          | false =>
            simp only [h4, Bool.false_eq_true, if_false, true_and]
            constructor
            · intro _ d' hd'
              injection hd' with hh
              subst hh
              by_cases he : d = ""
              · exact Or.inl he
              · right
                by_cases hl : jsLength d ≤ 1024
                · exact hl
                · exfalso
                  have hcontra : (decide (d ≠ "") && decide (jsLength d > 1024)) = true := by
                    simp only [Bool.and_eq_true, decide_eq_true_eq]
                    exact ⟨he, by omega⟩
                  rw [hcontra] at h4
                  exact Bool.noConfusion h4
            · intro _
              trivial

theorem validate_total (input : InvoiceInput) (now : Int) :
    validateInvoiceInput input now = .ok () ∨
      validateInvoiceInput input now = .error .invalidInput := by
  unfold validateInvoiceInput
  cases isValidAmount input.amount with
  | false => simp
  | true =>
    simp only [Bool.not_true, Bool.false_eq_true, if_false]
    cases isValidPublicKeyString input.recipientWallet with
    | false => simp
    | true =>
      simp only [Bool.not_true, Bool.false_eq_true, if_false]
      cases isFutureTimestamp input.dueDate now with
      | false => simp
      | true =>
        simp only [Bool.not_true, Bool.false_eq_true, if_false]
        cases input.description with
        | none => simp
        | some d =>
          cases h4 : (decide (d ≠ "") && decide (jsLength d > 1024)) with
          | true =>
            right
            dsimp only
            rw [if_pos h4]
          | false =>
            left
            dsimp only
            rw [if_neg (fun hh => by rw [h4] at hh; exact Bool.noConfusion hh)]

/-! Oracle selection (C8). -/

/-- An oracle outcome that `simulateCredit` accepts: an ok response whose
JSON body passes the truthiness shape test. -/
def oracleQualifies : OracleOutcome → Bool
  | .resp true (some body) => oracleShapeOk body
  | _ => false

theorem simulateCredit_all_fail {α : Type} :
    ∀ (outcomes : List OracleOutcome) (fb : α),
      (∀ o ∈ outcomes, oracleQualifies o = false) →
      simulateCredit outcomes fb = .inr fb := by
  intro outcomes
  induction outcomes with
  | nil => intro fb _; rfl
  | cons o rest ih =>
    intro fb h
    have ho := h o (by simp)
    have hrest : ∀ o' ∈ rest, oracleQualifies o' = false :=
      fun o' ho' => h o' (List.mem_cons_of_mem _ ho')
    cases o with
    | netError => exact ih fb hrest
    | resp ok body =>
      cases ok with
      | false => exact ih fb hrest
      | true =>
        cases body with
        | none => exact ih fb hrest
        | some b =>
          have hb : oracleShapeOk b = false := by simpa [oracleQualifies] using ho
          rw [show simulateCredit (.resp true (some b) :: rest) fb =
            if oracleShapeOk b = true then .inl b else simulateCredit rest fb from rfl]
          rw [if_neg (by rw [hb]; exact Bool.noConfusion)]
          exact ih fb hrest

theorem simulateCredit_first_qualifying {α : Type} :
    ∀ (pre : List OracleOutcome) (body : JVal) (post : List OracleOutcome) (fb : α),
      (∀ o ∈ pre, oracleQualifies o = false) → oracleShapeOk body = true →
      simulateCredit (pre ++ .resp true (some body) :: post) fb = .inl body := by
  intro pre
  induction pre with
  | nil =>
    intro body post fb _ hshape
    rw [List.nil_append]
    rw [show simulateCredit (.resp true (some body) :: post) fb =
      if oracleShapeOk body = true then .inl body else simulateCredit post fb from rfl]
    rw [if_pos hshape]
  | cons o rest ih =>
    intro body post fb h hshape
    have ho := h o (by simp)
    have hrest : ∀ o' ∈ rest, oracleQualifies o' = false :=
      fun o' ho' => h o' (List.mem_cons_of_mem _ ho')
    rw [List.cons_append]
    cases o with
    | netError => exact ih body post fb hrest hshape
    | resp ok b =>
      cases ok with
      | false => exact ih body post fb hrest hshape
      | true =>
        cases b with
        | none => exact ih body post fb hrest hshape
        | some bb =>
          have hb : oracleShapeOk bb = false := by simpa [oracleQualifies] using ho
          rw [show simulateCredit (.resp true (some bb) :: (rest ++ .resp true (some body) :: post)) fb =
            if oracleShapeOk bb = true then .inl bb
            else simulateCredit (rest ++ .resp true (some body) :: post) fb from rfl]
          rw [if_neg (by rw [hb]; exact Bool.noConfusion)]
          exact ih body post fb hrest hshape

/-- The concrete oracle body with `borrowingPower: 0`: all three fields are
present and well-typed, but `borrowingPower` is falsy. -/
def zeroPowerBody : JVal :=
  .obj (.cons "borrowingPower" (.num (.fin 0))
    (.cons "riskTier" (.str "D")
      (.cons "expectedLoanTerms"
        (.obj (.cons "maxAmount" (.num (.fin 0))
          (.cons "minAmount" (.num (.fin (mkRat 1 100)))
            (.cons "maxDurationDays" (.num (.fin 30))
              (.cons "aprPercent" (.num (.fin 20)) .nil))))) .nil)))

/-- An oracle body identical to `zeroPowerBody` except for a truthy
(nonzero) borrowing power. -/
def goodBody : JVal :=
  .obj (.cons "borrowingPower" (.num (.fin 1))
    (.cons "riskTier" (.str "B")
      (.cons "expectedLoanTerms"
        (.obj (.cons "maxAmount" (.num (.fin 1))
          (.cons "minAmount" (.num (.fin (mkRat 1 100)))
            (.cons "maxDurationDays" (.num (.fin 30))
              (.cons "aprPercent" (.num (.fin 15)) .nil))))) .nil)))

/-! Claim theorems. -/

/-- C1 (amended): canonicalization is deterministic — deep-equal
duplicate-free records serialize identically; array element order is
preserved and `Date` objects pass through as opaque scalars; at every
object level the emitted fields are the array-index-like keys first in
ascending numeric order, followed by the remaining keys sorted by UTF-16
code-unit order (not by code point). -/
theorem canonicalization_deterministic :
    (∀ v w : JVal, eqvJ v w = true → wfJ v = true → wfJ w = true →
        stableStringify v = stableStringify w)
    ∧ (∀ xs : JList, sortObject (.arr xs) = .arr (sortArr xs))
    ∧ (∀ ms : Int, sortObject (.date ms) = .date ms)
    ∧ (∀ fs : JFields, sortObject (.obj fs) = .obj (JFields.ofList (canonFields fs)))
    ∧ (∀ fs : JFields, ∃ idx rest, canonFields fs = idx ++ rest
        ∧ (∀ kv ∈ idx, isArrayIndexKey kv.1 = true)
        ∧ (∀ kv ∈ rest, isArrayIndexKey kv.1 = false)
        ∧ List.Sorted idxLe idx ∧ List.Sorted keyLe rest) :=
  ⟨fun _ _ he h1 h2 => stableStringify_eqv he h1 h2,
   fun _ => rfl, fun _ => rfl, fun _ => rfl, canonFields_shape⟩

/-- C1 counterexample: the claim says mapping keys are sorted by code-point
order at every nesting level, but for the record with keys "10" and "2" the
canonical form emits "2" before "10" (array-index keys are enumerated in
ascending numeric order by the JS object model), while "10" precedes "2" in
code-point order. -/
theorem canonicalization_code_point_order_cex :
    ((canonFields (.cons "10" .null (.cons "2" .null .nil))).map Prod.fst) = ["2", "10"]
    ∧ ("10" : String).data < ("2" : String).data
    ∧ stableStringifyD (.obj (.cons "10" .null (.cons "2" .null .nil))) =
        "\x7b\"2\":null,\"10\":null\x7d" :=
  ⟨by decide, by decide, by decide⟩

/-- Witness for C1: two concrete deep-equal records with different key
insertion order serialize identically. -/
theorem canonicalization_deterministic_witness :
    stableStringify (.obj (.cons "b" (.num (.fin 1)) (.cons "a" (.str "x") .nil))) =
      stableStringify (.obj (.cons "a" (.str "x") (.cons "b" (.num (.fin 1)) .nil))) :=
  canonicalization_deterministic.1 _ _ (by decide) (by decide) (by decide)

/-- C2: for every invoice input, issuer identity and creation time, the
identifier computed by `createInvoice` is the hash of exactly the submitted
bytes, and the canonical-subset recomputation performed by `verifyInvoice`
over {amount, recipientWallet, dueDate, description, issuerName,
issuerWallet, createdAt} reproduces exactly that identifier. -/
theorem build_verify_roundtrip :
    (∀ (input : InvoiceInput) (issuer : String) (now : Int),
        recomputeId (invoicePayload input issuer now) =
          .ok (sha256Hex (stableStringifyD (invoicePayload input issuer now))))
    ∧ (∀ (input : InvoiceInput) (issuer : String) (now : Int),
        validateInvoiceInput input now = .ok () →
        createInvoice input (some issuer) now (fun s => .ok s) =
          .ok (sha256Hex (stableStringifyD (invoicePayload input issuer now)),
            stableStringifyD (invoicePayload input issuer now))) := by
  constructor
  · exact recomputeId_invoicePayload
  · intro input issuer now hval
    unfold createInvoice
    rw [hval]

/-- Witness for C2: the concrete invoice round-trips — `createInvoice`
returns the hash of the submitted memo bytes. -/
theorem build_verify_roundtrip_witness :
    createInvoice cInput (some cIssuer) cNow (fun s => .ok s) = .ok (cId, cSer) :=
  build_verify_roundtrip.2 cInput cIssuer cNow (by decide)

/-- C3 (amended): loan status derivation reports `not_found` exactly when no
scanned memo contains the loanId as a substring; since the creation memo
cannot contain its own hash, a loan whose only in-window entry is its own
request entry is reported `not_found`, not `requested`. A matching
financing-flavored entry sets the running status to `active` at that step
(though a later matching keyword-free entry resets it to `requested`). -/
theorem loan_status_requires_matching_memo :
    (∀ (chain : List (Option String)) (loanId : String),
        getLoanStatus chain loanId = .not_found ↔
          ∀ s, some s ∈ chain.take 1000 → jsIncludes s loanId = false)
    ∧ (∀ (loanId s : String) (rest : List (Option String)) (found : Bool) (st : LoanStatus),
        jsIncludes s loanId = true → jsIncludes (lowerAscii s) "repay" = false →
        (jsIncludes (lowerAscii s) "loan" = true ∨ jsIncludes (lowerAscii s) "lend" = true) →
        loanStatusLoop loanId (some s :: rest) found st = loanStatusLoop loanId rest true .active) := by
  constructor
  · intro chain loanId
    exact loanStatusLoop_not_found_iff loanId (chain.take 1000)
  · intro loanId s rest found st h1 h2 h3
    simp only [loanStatusLoop, h1, h2]
    rcases h3 with h3 | h3 <;> simp [h3]

/-- C3 counterexample: `requestLoan` submits the concrete loan-request memo
and returns its hash as the loanId, yet scanning a window containing
exactly that creation entry yields `not_found` — the creation memo does not
contain its own hash, so the claimed minimal `requested` status is never
derived from the loan's own request entry. -/
theorem loan_creation_entry_not_found_cex :
    requestLoan cLoanInput (some cBorrower) cNow (fun _ => .ok "sig") =
        .ok (sha256Hex cLoanSer, "sig")
    ∧ getLoanStatus [some cLoanSer] (sha256Hex cLoanSer) = .not_found :=
  ⟨by decide, by decide⟩

/-- Witness for amended C3: an identifier matched by no scanned memo is
reported `not_found`. -/
theorem loan_status_requires_matching_memo_witness :
    getLoanStatus [some "hello world"] "zz" = .not_found :=
  (loan_status_requires_matching_memo.1 [some "hello world"] "zz").mpr (by
    intro s hs
    simp only [List.take, List.mem_cons, List.not_mem_nil, or_false, Option.some.injEq] at hs
    subst hs
    decide)

/-- C4: once an invoice is verified, any scanned entry containing the
identifier and a repay keyword makes `getInvoiceStatus` return `settled`,
regardless of the entry's position and of loan-flavored entries before or
after it; a loan-flavored matching entry upgrades the running status to
`financed` without short-circuiting the scan. -/
theorem repay_entry_settles_invoice :
    (∀ (chain : List (Option String)) (invoiceId : String),
        verifiedOk (verifyScan invoiceId (chain.take 1000)) = true →
        (∃ s, some s ∈ chain.take 200 ∧ jsIncludes s invoiceId = true ∧
          jsIncludes (lowerAscii s) "repay" = true) →
        getInvoiceStatus chain invoiceId = .ok .settled)
    ∧ (∀ (invoiceId s : String) (rest : List (Option String)) (st : InvoiceStatus),
        jsIncludes s invoiceId = true → jsIncludes (lowerAscii s) "repay" = false →
        jsIncludes (lowerAscii s) "loan" = true →
        invStatusLoop invoiceId (some s :: rest) st = invStatusLoop invoiceId rest .financed) := by
  constructor
  · intro chain invoiceId hver hex
    unfold getInvoiceStatus
    cases hv : verifyScan invoiceId (chain.take 1000) with
    | error e =>
      rw [hv] at hver
      simp [verifiedOk] at hver
    | ok r =>
      cases r with
      | none =>
        rw [hv] at hver
        simp [verifiedOk] at hver
      | some p =>
        dsimp only
        rw [invStatusLoop_settled invoiceId (chain.take 200) .verified hex]
  · intro invoiceId s rest st h1 h2 h3
    simp [invStatusLoop, h1, h2, h3]

/-- Witness for C4: the concrete verified invoice with a later repay memo is
reported `settled`. -/
theorem repay_entry_settles_invoice_witness :
    getInvoiceStatus [some cSer, some cRepayMemo] cId = .ok .settled :=
  repay_entry_settles_invoice.1 [some cSer, some cRepayMemo] cId (by decide)
    ⟨cRepayMemo, by decide, by decide, by decide⟩

/-- C5 (amended): the keyword scans (`getLoanStatus` and the status loop of
`getInvoiceStatus`) skip any memo not containing the identifier — malformed
or not — and never throw; the identifier scan of `verifyInvoice` skips a
memo that parses as JSON whose recomputed identifier mismatches, but
`JSON.parse`s every memo unguarded, so a single non-JSON memo throws a
SyntaxError that aborts the whole scan (and `getInvoiceStatus` with it),
contrary to the claim. -/
theorem malformed_memo_handling :
    (∀ (loanId s : String) (rest : List (Option String)) (found : Bool) (st : LoanStatus),
        jsIncludes s loanId = false →
        loanStatusLoop loanId (some s :: rest) found st = loanStatusLoop loanId rest found st)
    ∧ (∀ (invoiceId s : String) (rest : List (Option String)) (st : InvoiceStatus),
        jsIncludes s invoiceId = false →
        invStatusLoop invoiceId (some s :: rest) st = invStatusLoop invoiceId rest st)
    ∧ (∀ (invoiceId s c : String) (rest : List (Option String)),
        memoRecomputeOk s = some c → c ≠ invoiceId →
        verifyScan invoiceId (some s :: rest) = verifyScan invoiceId rest)
    ∧ (∀ (invoiceId s : String) (rest : List (Option String)),
        (parseJson s).isNone = true →
        verifyScan invoiceId (some s :: rest) = .error .syntaxError)
    ∧ (∀ (chain : List (Option String)) (invoiceId : String),
        scanThrew (verifyScan invoiceId (chain.take 1000)) = true →
        scanThrew (getInvoiceStatus chain invoiceId) = true) := by
  refine ⟨?loan, ?inv, ?skip, ?throw, ?prop⟩
  · intro loanId s rest found st h1
    simp [loanStatusLoop, h1]
  · intro invoiceId s rest st h1
    simp [invStatusLoop, h1]
  · intro invoiceId s c rest hc hne
    exact verifyScan_skip hc hne rest
  · intro invoiceId s rest hp
    exact verifyScan_malformed_throws (Option.isNone_iff_eq_none.mp hp) rest
  · intro chain invoiceId h
    exact getInvoiceStatus_propagates_error h

/-- C5 counterexample: a single non-JSON memo makes the identifier scan
throw instead of skipping it — the same window without the corrupt entry
verifies the invoice. -/
theorem malformed_memo_aborts_scan_cex :
    scanThrew (verifyScan cId [some "oops", some cSer]) = true
    ∧ verifiedOk (verifyScan cId [some cSer]) = true :=
  ⟨by decide, by decide⟩

/-- Witness for amended C5: a concrete non-JSON memo throws a SyntaxError. -/
theorem malformed_memo_handling_witness :
    verifyScan "abc" [some "oops"] = .error .syntaxError :=
  malformed_memo_handling.2.2.2.1 "abc" "oops" [] (by decide)

/-- C6 (amended): with a valid recipient wallet, invoice validation accepts
exactly the in-range inputs — positive finite amount, future dueDate, and a
description of at most 1024 UTF-16 code units (not characters) when present
and non-empty — rejecting everything else with a ValidationError before the
transport layer is consulted; the boundary input amount = 0.01,
dueDate = now + 86400 is accepted. -/
theorem validation_boundaries :
    (∀ (input : InvoiceInput) (now : Int),
        validateInvoiceInput input now = .ok () ↔ inRangeInput input now)
    ∧ (∀ (input : InvoiceInput) (now : Int),
        validateInvoiceInput input now = .error .invalidInput ↔ ¬ inRangeInput input now)
    ∧ (∀ (w : String) (now : Int), isValidPublicKeyString w = true →
        validateInvoiceInput ⟨.fin (mkRat 1 100), w, .fin ((now : ℚ) + 86400), none, none⟩ now =
          .ok ())
    ∧ (∀ (input : InvoiceInput) (pk : Option String) (now : Int)
        (submit : String → Except Unit String) (e : ErrorCode),
        validateInvoiceInput input now = .error e →
        createInvoice input pk now submit = .error e) := by
  refine ⟨validate_ok_iff, ?err, ?boundary, ?before⟩
  · intro input now
    constructor
    · intro h hin
      rw [(validate_ok_iff input now).mpr hin] at h
      exact Except.noConfusion h
    · intro h
      rcases validate_total input now with hok | herr
      · exact absurd ((validate_ok_iff input now).mp hok) h
      · exact herr
  · intro w now hw
    apply (validate_ok_iff _ _).mpr
    refine ⟨?amt, hw, ?future, ?desc⟩
    · show isValidAmount (.fin (mkRat 1 100)) = true
      decide
    · show JsNum.gtQ (.fin ((now : ℚ) + 86400)) (now : ℚ) = true
      simp only [JsNum.gtQ, decide_eq_true_eq]
      linarith
    · intro d hd
      exact Option.noConfusion hd
  · intro input pk now submit e h
    unfold createInvoice
    rw [h]

/-- C6 counterexample: a description of 513 astral characters (513
characters, hence within the claimed 1024-character bound) is rejected,
because the code measures `String.prototype.length` in UTF-16 code units
(here 1026): the claim's "exactly the out-of-range inputs" fails at this
input. -/
theorem validation_utf16_length_cex :
    validateInvoiceInput cBigDescInput cNow = .error .invalidInput
    ∧ cDesc513.length = 513
    ∧ isValidAmount cBigDescInput.amount = true
    ∧ isValidPublicKeyString cBigDescInput.recipientWallet = true
    ∧ isFutureTimestamp cBigDescInput.dueDate cNow = true :=
  ⟨by decide, by decide, by decide, by decide, by decide⟩

/-- Witness for amended C6: the boundary input is accepted. -/
theorem validation_boundaries_witness :
    validateInvoiceInput
      ⟨.fin (mkRat 1 100), String.mk (List.replicate 44 'A'),
        .fin (((1700000000 : Int) : ℚ) + 86400), none, none⟩ 1700000000 = .ok () :=
  validation_boundaries.2.2.1 (String.mk (List.replicate 44 'A')) 1700000000 (by decide)

/-- C7 (amended): provided every memo in the scan window parses as JSON and
recomputes without throwing, an identifier matching no entry yields
`{verified: false}` from the identifier scan and `not_found` from invoice
status derivation, as normal result values; a malformed memo in the window,
however, makes both throw even for an absent identifier. -/
theorem absent_identifier_not_found :
    ∀ (chain : List (Option String)) (invoiceId : String),
      (∀ s, some s ∈ chain.take 1000 →
        memoRecomputeOk s ≠ none ∧ memoRecomputeOk s ≠ some invoiceId) →
      verifyScan invoiceId (chain.take 1000) = .ok none ∧
        getInvoiceStatus chain invoiceId = .ok .not_found := by
  intro chain invoiceId h
  have hv := verifyScan_absent invoiceId (chain.take 1000) h
  refine ⟨hv, ?_⟩
  unfold getInvoiceStatus
  rw [hv]

/-- C7 counterexample: the identifier "zz" appears on no entry, yet the
scan of a window holding one non-JSON memo throws instead of returning
`{verified: false}` / `not_found`. -/
theorem absent_identifier_throws_cex :
    jsIncludes "oops" "zz" = false
    ∧ scanThrew (verifyScan "zz" [some "oops"]) = true
    ∧ scanThrew (getInvoiceStatus [some "oops"] "zz") = true :=
  ⟨by decide, by decide, by decide⟩

/-- Witness for amended C7: a window of one well-formed non-matching memo
and one memo-less entry yields `verified: false` and `not_found`. -/
theorem absent_identifier_not_found_witness :
    verifyScan "deadbeef" ([none, some "\x7b\"a\":1\x7d"].take 1000) = .ok none ∧
      getInvoiceStatus [none, some "\x7b\"a\":1\x7d"] "deadbeef" = .ok .not_found :=
  absent_identifier_not_found [none, some "\x7b\"a\":1\x7d"] "deadbeef" (by
    intro s hs
    simp only [List.take, List.mem_cons, List.not_mem_nil, or_false,
      Option.some.injEq, reduceCtorEq, false_or] at hs
    subst hs
    exact ⟨by decide, by decide⟩)

/-- C8 (amended): credit simulation queries the configured oracle endpoints
in order and returns the body of the first ok response whose JSON body has
truthy `borrowingPower`, `riskTier` and `expectedLoanTerms` — a truthiness
test, not a shape test, so a response carrying `borrowingPower: 0` is
skipped — and falls back to the local RiskModel evaluator when no endpoint
qualifies (including when none is configured). -/
theorem oracle_first_truthy_response :
    (∀ (α : Type) (outcomes : List OracleOutcome) (fb : α),
        (∀ o ∈ outcomes, oracleQualifies o = false) →
        simulateCredit outcomes fb = .inr fb)
    ∧ (∀ (α : Type) (pre : List OracleOutcome) (body : JVal) (post : List OracleOutcome) (fb : α),
        (∀ o ∈ pre, oracleQualifies o = false) → oracleShapeOk body = true →
        simulateCredit (pre ++ .resp true (some body) :: post) fb = .inl body) :=
  ⟨fun _ => simulateCredit_all_fail, fun _ => simulateCredit_first_qualifying⟩

/-- C8 counterexample: an ok response whose body carries all three fields
(`borrowingPower: 0`, a risk tier and loan terms) is shape-valid in the
claim's sense, yet the code skips it (0 is falsy) and uses the local
fallback. -/
theorem oracle_zero_borrowing_power_cex :
    usedFallback (simulateCredit [.resp true (some zeroPowerBody)] ()) = true
    ∧ stableStringifyD zeroPowerBody =
        "\x7b\"borrowingPower\":0,\"expectedLoanTerms\":\x7b\"aprPercent\":20,\"maxAmount\":0,\"maxDurationDays\":30,\"minAmount\":0.01\x7d,\"riskTier\":\"D\"\x7d" :=
  ⟨by decide, by decide⟩

/-- Witness for amended C8: the first truthy-shaped response wins over
earlier non-qualifying outcomes. -/
theorem oracle_first_truthy_response_witness :
    simulateCredit [OracleOutcome.netError, .resp true (some zeroPowerBody),
      .resp true (some goodBody)] () = .inl goodBody :=
  oracle_first_truthy_response.2 Unit [.netError, .resp true (some zeroPowerBody)] goodBody [] ()
    (by
      intro o ho
      simp only [List.mem_cons, List.not_mem_nil, or_false] at ho
      rcases ho with h | h <;> subst h <;> decide)
    (by decide)

/-- C9: the status engines never produce certain members of their declared
status types — `getInvoiceStatus` never returns `pending` and
`getLoanStatus` never returns `defaulted`. -/
theorem unreachable_status_members :
    (∀ (chain : List (Option String)) (invoiceId : String),
        getInvoiceStatus chain invoiceId ≠ .ok .pending)
    ∧ (∀ (chain : List (Option String)) (loanId : String),
        getLoanStatus chain loanId ≠ .defaulted) := by
  constructor
  · intro chain invoiceId h
    unfold getInvoiceStatus at h
    cases hv : verifyScan invoiceId (chain.take 1000) with
    | error e =>
      rw [hv] at h
      exact Except.noConfusion h
    | ok r =>
      rw [hv] at h
      cases r with
      | none => simp at h
      | some p =>
        simp only [Except.ok.injEq] at h
        exact invStatusLoop_ne_pending invoiceId (chain.take 200) .verified (by simp) h
  · intro chain loanId h
    exact loanStatusLoop_ne_defaulted loanId (chain.take 1000) false .not_found (by simp) h

/-- Witness for C9 at a concrete input. -/
theorem unreachable_status_members_witness :
    getInvoiceStatus [] "aa" ≠ .ok .pending ∧ getLoanStatus [] "aa" ≠ .defaulted :=
  ⟨unreachable_status_members.1 [] "aa", unreachable_status_members.2 [] "aa"⟩

/-- C10 (amended): recipient-wallet validation checks only the string's JS
length — its UTF-16 code-unit count, not its character count — accepting
exactly the strings of 32 to 44 code units regardless of content. -/
theorem wallet_validation_length_only :
    ∀ s : String, isValidPublicKeyString s = true ↔ (32 ≤ jsLength s ∧ jsLength s ≤ 44) := by
  intro s
  simp [isValidPublicKeyString, Bool.and_eq_true, decide_eq_true_eq]

/-- C10 counterexample: a string of 20 astral characters — 20 characters,
outside the claimed 32..44 character range — is accepted, because its JS
length is 40 code units. -/
theorem wallet_validation_code_unit_cex :
    isValidPublicKeyString cAstral20 = true ∧ cAstral20.length = 20 :=
  ⟨by decide, by decide⟩

/-- Witness for amended C10 at a 40-code-unit ASCII string. -/
theorem wallet_validation_length_only_witness :
    isValidPublicKeyString (String.mk (List.replicate 40 'B')) = true :=
  (wallet_validation_length_only (String.mk (List.replicate 40 'B'))).mpr
    ⟨by decide, by decide⟩

/-- Sanity anchor for the hash embedding: the FIPS 180-4 test vector. -/
theorem sha256Hex_abc_vector :
    sha256Hex "abc" =
      "ba7816bf8f01cfea414140de5dae2223b00361a396177a9cb410ff61f20015ad" := by
  decide

end Movira

